import Mathlib

/-!
Verification of the guarded skill-execution runtime (agent-core).

This file embeds, in Lean, the parts of the source that the verified
properties speak about:

* `policy.py` — the hard shell deny-list, `check_shell_command`,
  `check_http_access`, and the two sliding-window rate limiters;
* `approval.py` — the approval store operations `create_request`,
  `resolve`, and the deadline write of `wait_for_resolution`, as a
  transition system over traces of operations;
* `skill_runner.py` — `execute_skill` (the policy → validate → approval →
  execute → sanitize → trace pipeline) and `run_tool_loop` (the model ↔
  skills loop with per-turn caps and the one-shot refusal nudge);
* `tracing.py` — `_sanitize` (secret redaction) and the JSON line
  emitted by `log_skill_call`.

Regular expressions in the source (the compiled-in deny patterns and the
refusal pattern) are translated into a small executable matcher with
Python `re.search` semantics for the constructs those patterns use.
-/

namespace Agent

/-! ### A small regular-expression matcher

Supports the constructs used by the compiled-in patterns of `policy.py`
and `skill_runner.py`: single-character classes, sequencing, alternation,
Kleene star, the word boundary `\b`, and the end anchor `$` (which in
Python also matches just before a final newline).  Matching is
backtracking and fuel-bounded; the fuel only limits how many times a
starred expression may consume input, and a star step always consumes at
least one character, so `length + 1` fuel is always enough.
-/

inductive RE where
  | eps : RE
  | cls (p : Char → Bool) : RE
  | seq (a b : RE) : RE
  | alt (a b : RE) : RE
  | star (r : RE) : RE
  | wordB : RE
  | eol : RE

/-- Python word characters for the purpose of the boundary `\b`. -/
def isWordChar (c : Char) : Bool :=
  c.isAlphanum || c == '_'

/-- The boundary test: the previous character and the next character
disagree on wordness (start and end of input count as non-word). -/
def atWordBoundary (prev : Option Char) (rest : List Char) : Bool :=
  let pw := match prev with
    | none => false
    | some c => isWordChar c
  let nw := match rest with
    | [] => false
    | c :: _ => isWordChar c
  pw != nw

/-- One level of the matcher: structural recursion over the expression,
with `starCB` the continuation used when a starred expression loops after
consuming input (it runs at one unit of fuel less).  Each result is the
previous-character marker and the remaining suffix. -/
def reMatchAux (starCB : RE → Option Char → List Char → List (Option Char × List Char)) :
    RE → Option Char → List Char → List (Option Char × List Char)
  | RE.eps, prev, rest => [(prev, rest)]
  | RE.cls p, _, rest =>
    match rest with
    | [] => []
    | c :: cs => if p c then [(some c, cs)] else []
  | RE.wordB, prev, rest =>
    if atWordBoundary prev rest then [(prev, rest)] else []
  | RE.eol, prev, rest =>
    if rest.isEmpty || rest == ['\n'] then [(prev, rest)] else []
  | RE.seq a b, prev, rest =>
    (reMatchAux starCB a prev rest).flatMap fun pr => reMatchAux starCB b pr.1 pr.2
  | RE.alt a b, prev, rest =>
    reMatchAux starCB a prev rest ++ reMatchAux starCB b prev rest
  | RE.star r, prev, rest =>
    (prev, rest) ::
      (reMatchAux starCB r prev rest).flatMap fun pr =>
        if pr.2.length < rest.length then starCB (RE.star r) pr.1 pr.2 else []

/-- All ways a regular expression can match a prefix of `rest`.  A star
step always consumes at least one character, so fuel `rest.length + 1`
makes the bound immaterial. -/
def reMatch : Nat → RE → Option Char → List Char → List (Option Char × List Char)
  | 0 => reMatchAux fun _ _ _ => []
  | fuel + 1 => reMatchAux (reMatch fuel)

/-- Does the expression match starting at the current position? -/
def reMatchesHere (r : RE) (prev : Option Char) (rest : List Char) : Bool :=
  !(reMatch (rest.length + 1) r prev rest).isEmpty

/-- `re.search` semantics: try every start position. -/
def reSearchFrom (r : RE) : Option Char → List Char → Bool
  | prev, rest =>
    reMatchesHere r prev rest ||
      match rest with
      | [] => false
      | c :: cs => reSearchFrom r (some c) cs

/-- `re.search(pattern, s)` as a Boolean. -/
def reSearch (r : RE) (s : String) : Bool :=
  reSearchFrom r none s.data

/-- A literal character (case sensitive). -/
def chr (c : Char) : RE := RE.cls (fun x => x == c)

/-- A literal character, case insensitive (the `re.IGNORECASE` flag). -/
def chrCI (c : Char) : RE := RE.cls (fun x => x.toLower == c.toLower)

/-- Sequence a list of expressions. -/
def seqList (rs : List RE) : RE := rs.foldr RE.seq RE.eps

/-- A literal string. -/
def lit (s : String) : RE := seqList (s.data.map chr)

/-- A literal string, case insensitive. -/
def litCI (s : String) : RE := seqList (s.data.map chrCI)

/-- `\s`: Python whitespace class. -/
def wsp : RE := RE.cls (fun c => c == ' ' || c == '\t' || c == '\n' || c == '\r' || c == '\x0b' || c == '\x0c')

/-- `[a-zA-Z]`. -/
def alphaCls : RE := RE.cls Char.isAlpha

/-- `.`: any character except newline. -/
def dot : RE := RE.cls (fun c => c != '\n')

/-- `r+`. -/
def rplus (r : RE) : RE := RE.seq r (RE.star r)

/-- `r?`. -/
def ropt (r : RE) : RE := RE.alt r RE.eps

/-- Python `str.lower()` (character-wise). -/
def strLower (s : String) : String := String.mk (s.data.map Char.toLower)

/-- Python `str.upper()` (character-wise). -/
def strUpper (s : String) : String := String.mk (s.data.map Char.toUpper)

/-! ### policy.py — enums and result record -/

inductive Zone where
  | sandbox | identity | system | external | unknown
  deriving DecidableEq, Repr

inductive ActionType where
  | read | write | execute | http_get | http_post | http_put | http_delete | shell
  deriving DecidableEq, Repr

inductive Decision where
  | allow | deny | requires_approval
  deriving DecidableEq, Repr

inductive RiskLevel where
  | low | medium | high | critical
  deriving DecidableEq, Repr

structure PolicyResult where
  decision : Decision
  zone : Zone
  action : ActionType
  reason : String
  risk_level : RiskLevel
  deriving DecidableEq, Repr

/-! ### policy.py — the compiled-in shell deny-list

Each entry is the translation of one pattern of `HARD_DENY_PATTERNS`,
in source order.  These are module-level constants in the source, not
part of the loaded configuration.
-/

def HARD_DENY_PATTERNS : List RE := [
  -- \brm\s+(-[a-zA-Z]*)?r[a-zA-Z]*f        (rm -rf / rm -fr)
  seqList [RE.wordB, lit "rm", rplus wsp, ropt (RE.seq (chr '-') (RE.star alphaCls)),
    chr 'r', RE.star alphaCls, chr 'f'],
  -- \brm\s+(-[a-zA-Z]*)?f[a-zA-Z]*r        (rm -fr variants)
  seqList [RE.wordB, lit "rm", rplus wsp, ropt (RE.seq (chr '-') (RE.star alphaCls)),
    chr 'f', RE.star alphaCls, chr 'r'],
  -- \brm\s+-rf\b                           (explicit rm -rf)
  seqList [RE.wordB, lit "rm", rplus wsp, lit "-rf", RE.wordB],
  -- \bchmod\s+777\b
  seqList [RE.wordB, lit "chmod", rplus wsp, lit "777", RE.wordB],
  -- \bchmod\s+-R\s+777\b
  seqList [RE.wordB, lit "chmod", rplus wsp, lit "-R", rplus wsp, lit "777", RE.wordB],
  -- \bcurl\b.*\|\s*(ba)?sh\b
  seqList [RE.wordB, lit "curl", RE.wordB, RE.star dot, chr '|', RE.star wsp,
    ropt (lit "ba"), lit "sh", RE.wordB],
  -- \bwget\b.*\|\s*(ba)?sh\b
  seqList [RE.wordB, lit "wget", RE.wordB, RE.star dot, chr '|', RE.star wsp,
    ropt (lit "ba"), lit "sh", RE.wordB],
  -- :\(\)\{.*\|.*&.*\};:                   (classic fork bomb)
  seqList [lit ":()\x7b", RE.star dot, chr '|', RE.star dot, chr '&', RE.star dot,
    lit "\x7d;:"],
  -- \bfork\s*bomb\b   (IGNORECASE)
  seqList [RE.wordB, litCI "fork", RE.star wsp, litCI "bomb", RE.wordB],
  -- \bshutdown\b
  seqList [RE.wordB, lit "shutdown", RE.wordB],
  -- \breboot\b
  seqList [RE.wordB, lit "reboot", RE.wordB],
  -- \bhalt\b
  seqList [RE.wordB, lit "halt", RE.wordB],
  -- \binit\s+0\b
  seqList [RE.wordB, lit "init", rplus wsp, lit "0", RE.wordB],
  -- \bpoweroff\b
  seqList [RE.wordB, lit "poweroff", RE.wordB],
  -- \bmkfs\b
  seqList [RE.wordB, lit "mkfs", RE.wordB],
  -- \bdd\s+.*of=/dev/
  seqList [RE.wordB, lit "dd", rplus wsp, RE.star dot, lit "of=/dev/"],
  -- \bsudo\s+su\b
  seqList [RE.wordB, lit "sudo", rplus wsp, lit "su", RE.wordB],
  -- \bsu\s+-\s*$
  seqList [RE.wordB, lit "su", rplus wsp, chr '-', RE.star wsp, RE.eol],
  -- \bpasswd\b
  seqList [RE.wordB, lit "passwd", RE.wordB],
  -- \bnc\s+-[a-zA-Z]*l                      (netcat listen)
  seqList [RE.wordB, lit "nc", rplus wsp, chr '-', RE.star alphaCls, chr 'l'],
  -- /dev/tcp/
  lit "/dev/tcp/",
  -- \bsudo\s+pip\b
  seqList [RE.wordB, lit "sudo", rplus wsp, lit "pip", RE.wordB],
  -- \bsudo\s+npm\b
  seqList [RE.wordB, lit "sudo", rplus wsp, lit "npm", RE.wordB],
  -- \bhistory\s+-c\b
  seqList [RE.wordB, lit "history", rplus wsp, lit "-c", RE.wordB],
  -- >\s*/dev/null\s+2>&1\s*&\s*$            (background + silence)
  seqList [chr '>', RE.star wsp, lit "/dev/null", rplus wsp, lit "2>&1", RE.star wsp,
    chr '&', RE.star wsp, RE.eol]
]

/-! ### policy.py — configuration and checks

The loaded YAML document is modelled by the parts the verified checks
read.  A configured denied-URL pattern is carried as its source text
paired with its compiled form, modelled extensionally as a predicate on
URLs (`re.search(pat, url, re.IGNORECASE)`).  The per-method rules of
`external_access` form a string-keyed dictionary, modelled as a partial
map; `none` models an absent key.
-/

structure ExternalAccessConfig where
  denied_url_patterns : List (String × (String → Bool))
  rules : String → Option String

structure RateLimitConfig where
  max_calls : Nat
  window_seconds : Int

structure PolicyConfig where
  external_access : ExternalAccessConfig
  rate_limits : String → Option RateLimitConfig

/-- The source texts of the deny patterns, in the same order, used for
the reason string of a denial. -/
def HARD_DENY_PATTERN_SOURCES : List String := [
  "\\brm\\s+(-[a-zA-Z]*)?r[a-zA-Z]*f",
  "\\brm\\s+(-[a-zA-Z]*)?f[a-zA-Z]*r",
  "\\brm\\s+-rf\\b",
  "\\bchmod\\s+777\\b",
  "\\bchmod\\s+-R\\s+777\\b",
  "\\bcurl\\b.*\\|\\s*(ba)?sh\\b",
  "\\bwget\\b.*\\|\\s*(ba)?sh\\b",
  ":\\(\\)\\\x7b.*\\|.*&.*\\\x7d;:",
  "\\bfork\\s*bomb\\b",
  "\\bshutdown\\b",
  "\\breboot\\b",
  "\\bhalt\\b",
  "\\binit\\s+0\\b",
  "\\bpoweroff\\b",
  "\\bmkfs\\b",
  "\\bdd\\s+.*of=/dev/",
  "\\bsudo\\s+su\\b",
  "\\bsu\\s+-\\s*$",
  "\\bpasswd\\b",
  "\\bnc\\s+-[a-zA-Z]*l",
  "/dev/tcp/",
  "\\bsudo\\s+pip\\b",
  "\\bsudo\\s+npm\\b",
  "\\bhistory\\s+-c\\b",
  ">\\s*/dev/null\\s+2>&1\\s*&\\s*$"
]

/-- `PolicyEngine.is_denied_command`: scan the hard deny patterns in
order; on the first match return `(true, source text of the pattern)`. -/
def is_denied_command (command : String) : Bool × Option String :=
  match HARD_DENY_PATTERNS.findIdx? (fun p => reSearch p command) with
  | some i => (true, HARD_DENY_PATTERN_SOURCES[i]?)
  | none => (false, none)

/-- `PolicyEngine.check_shell_command`.  The configuration argument is
unused: the deny-list is compiled in. -/
def check_shell_command (_config : PolicyConfig) (command : String) : PolicyResult :=
  match is_denied_command command with
  | (true, pat) =>
    { decision := Decision.deny
      zone := Zone.system
      action := ActionType.shell
      reason := "Command matches deny pattern: " ++ pat.getD ""
      risk_level := RiskLevel.critical }
  | (false, _) =>
    { decision := Decision.allow
      zone := Zone.sandbox
      action := ActionType.shell
      reason := "Command not on deny list"
      risk_level := RiskLevel.low }

/-- `PolicyEngine._rule_to_decision`: unknown rule strings map to deny. -/
def _rule_to_decision (rule : String) : Decision :=
  if rule == "allow" then Decision.allow
  else if rule == "deny" then Decision.deny
  else if rule == "requires_approval" then Decision.requires_approval
  else Decision.deny

/-- `PolicyEngine._method_to_action`: unknown methods map to POST. -/
def _method_to_action (method : String) : ActionType :=
  let m := strUpper method
  if m == "GET" then ActionType.http_get
  else if m == "POST" then ActionType.http_post
  else if m == "PUT" then ActionType.http_put
  else if m == "DELETE" then ActionType.http_delete
  else ActionType.http_post

/-- The `method_key_map.get(method_upper, "http_post")` lookup inside
`check_http_access` (argument already upper-cased). -/
def method_cfg_key (method_upper : String) : String :=
  if method_upper == "GET" then "http_get"
  else if method_upper == "POST" then "http_post"
  else if method_upper == "PUT" then "http_put"
  else if method_upper == "DELETE" then "http_delete"
  else "http_post"

/-- `PolicyEngine.check_http_access`. -/
def check_http_access (config : PolicyConfig) (url : String) (method : String) : PolicyResult :=
  match config.external_access.denied_url_patterns.find? (fun p => p.2 url) with
  | some p =>
    { decision := Decision.deny
      zone := Zone.external
      action := _method_to_action method
      reason := "URL matches denied pattern: " ++ p.1
      risk_level := RiskLevel.critical }
  | none =>
    let method_upper := strUpper method
    let action := _method_to_action method_upper
    let rule := (config.external_access.rules (method_cfg_key method_upper)).getD "requires_approval"
    let decision := _rule_to_decision rule
    let risk := if decision == Decision.allow then RiskLevel.low else RiskLevel.medium
    { decision := decision
      zone := Zone.external
      action := action
      reason := "HTTP " ++ method_upper ++ ": " ++ rule
      risk_level := risk }

/-! ### policy.py — sliding-window rate limiters

Timestamps are rationals (`time.time()` values).  The in-memory window
is the list `self._rate_counters[bucket]`.  The Redis window is a sorted
set `ratelimit:<bucket>`; members are fresh UUIDs so one list entry per
admission is a faithful model, together with the TTL set by `EXPIRE`
(absolute expiry time; an expired key behaves as an empty set).  Both
step functions return the admit/deny Boolean and the new state.
-/

/-- `PolicyEngine._check_rate_limit_memory`: evict entries older than the
window (the pruned list is stored even on denial), deny when the
remaining count reaches `max_calls`, else record `now` and admit. -/
def _check_rate_limit_memory (max_calls : Nat) (window : ℚ) (counters : List ℚ)
    (now : ℚ) : Bool × List ℚ :=
  let kept := counters.filter fun t => now - t < window
  if max_calls ≤ kept.length then (false, kept)
  else (true, kept ++ [now])

structure RedisZSet where
  scores : List ℚ
  expiry : Option ℚ
  deriving DecidableEq

/-- `PolicyEngine._check_rate_limit_redis`: the pipeline
`zremrangebyscore key 0 (now - window)`, `zadd key \x7bcall_id: now\x7d`,
`zcard key`, `expire key (window + 1)`, followed by
`zrem key call_id` when the post-add count exceeds the cap. -/
def _check_rate_limit_redis (max_calls : Nat) (window : ℚ) (st : RedisZSet)
    (now : ℚ) : Bool × RedisZSet :=
  let live := match st.expiry with
    | some e => if e < now then [] else st.scores
    | none => st.scores
  let kept := live.filter fun s => !(0 ≤ s && s ≤ now - window)
  let added := kept ++ [now]
  let expiry := some (now + window + 1)
  if max_calls < added.length then (false, { scores := kept, expiry := expiry })
  else (true, { scores := added, expiry := expiry })

/-- Run the in-memory window over a sequence of call timestamps. -/
def memRun (max_calls : Nat) (window : ℚ) : List ℚ → List ℚ → List Bool
  | _, [] => []
  | st, now :: rest =>
    let r := _check_rate_limit_memory max_calls window st now
    r.1 :: memRun max_calls window r.2 rest

/-- Run the Redis-backed window over a sequence of call timestamps. -/
def redisRun (max_calls : Nat) (window : ℚ) : RedisZSet → List ℚ → List Bool
  | _, [] => []
  | st, now :: rest =>
    let r := _check_rate_limit_redis max_calls window st now
    r.1 :: redisRun max_calls window r.2 rest

/-! ### approval.py — the approval store as a transition system

The store maps approval ids to Redis hashes.  `status` is present in
every record either write path creates; the other fields are optional
(an `hset` on an absent key creates a hash holding only the written
fields).  Three operations write to the store: `create_request`,
`resolve`, and the unconditional deadline write at the end of
`wait_for_resolution` (which in the source runs after the poll loop
exits, with no further status check).  Traces of these operations model
the interleaving of waiters and resolvers on the shared store; UUID
freshness of created ids is a trace hypothesis.
-/

structure ApprovalRecord where
  id : Option String := none
  action : Option String := none
  zone : Option String := none
  risk_level : Option String := none
  description : Option String := none
  target : Option String := none
  status : String
  created_at : Option ℚ := none
  resolved_at : Option ℚ := none
  resolved_by : Option String := none
  proposed_content : Option String := none
  deriving DecidableEq

def AStore := String → Option ApprovalRecord

def storeSet (st : AStore) (k : String) (r : ApprovalRecord) : AStore :=
  fun x => if x == k then some r else st x

/-- `ApprovalManager.create_request` (the store write; the pub/sub
notification and the TTL are best-effort side channels). -/
def create_request (st : AStore) (approval_id action zone risk_level description
    target : String) (proposed_content : Option String) (now : ℚ) : AStore :=
  storeSet st approval_id
    { id := some approval_id
      action := some action
      zone := some zone
      risk_level := some risk_level
      description := some description
      target := some target
      status := "pending"
      created_at := some now
      proposed_content := proposed_content }

/-- `ApprovalManager.resolve`: reject when absent or not pending, else
write the resolution fields. -/
def resolve (st : AStore) (approval_id status resolved_by : String) (now : ℚ) :
    Bool × AStore :=
  match st approval_id with
  | none => (false, st)
  | some r =>
    if r.status != "pending" then (false, st)
    else
      (true, storeSet st approval_id
        { r with status := status, resolved_at := some now,
                 resolved_by := some resolved_by })

/-- The deadline write of `ApprovalManager.wait_for_resolution`: after
the poll loop exits, `hset` the timeout resolution unconditionally —
creating the hash when the record is gone, overwriting the status
whatever it is. -/
def wait_deadline_write (st : AStore) (approval_id : String) (now : ℚ) : AStore :=
  match st approval_id with
  | some r =>
    storeSet st approval_id
      { r with status := "timeout", resolved_at := some now,
               resolved_by := some "system:timeout" }
  | none =>
    storeSet st approval_id
      { status := "timeout", resolved_at := some now,
        resolved_by := some "system:timeout" }

/-- One store-writing operation of the approval manager. -/
inductive AOp where
  | create (approval_id action zone risk_level description target : String)
      (proposed_content : Option String) (now : ℚ)
  | resolveOp (approval_id status resolved_by : String) (now : ℚ)
  | deadline (approval_id : String) (now : ℚ)

def stepOp (st : AStore) : AOp → AStore
  | AOp.create i a z r d t p n => create_request st i a z r d t p n
  | AOp.resolveOp i s b n => (resolve st i s b n).2
  | AOp.deadline i n => wait_deadline_write st i n

/-- Trace well-formedness: every `create` uses a fresh id (UUID4). -/
def wfOps (st : AStore) : List AOp → Bool
  | [] => true
  | op :: rest =>
    (match op with
     | AOp.create i _ _ _ _ _ _ _ => (st i).isNone
     | _ => true) && wfOps (stepOp st op) rest

/-- The status argument a resolver may pass: the HTTP boundary admits
only `approved` and `denied`; in particular never `pending`. -/
def resolveStatusOk : AOp → Bool
  | AOp.resolveOp _ s _ _ => s != "pending"
  | _ => true

/-- How many `resolve` calls in the trace return `True` for a given id. -/
def countResolveTrue (st : AStore) (approval_id : String) : List AOp → Nat
  | [] => 0
  | op :: rest =>
    (match op with
     | AOp.resolveOp i s b n =>
       if i == approval_id && (resolve st i s b n).1 then 1 else 0
     | _ => 0) + countResolveTrue (stepOp st op) approval_id rest

/-! ### skill_runner.py — execute_skill

A parameter dict maps keys to values; only the reserved `_user_id`
entry (a string) is ever constructed by the runner itself, so parameter
values are modelled as strings plus opaque non-string values.  The
skill capability set (`SkillBase`) is three functions; a Python call
that raises is modelled as returning `Except.error` with the exception
message.  The policy and approval collaborators are modelled by the
outcome the pipeline observes from them: the rate-limit Boolean and the
combined result of `create_request` + `wait_for_resolution` (an
exception in either is caught by the same handler in the source).

The result record carries, besides the returned string, the list of
`tracing.log_skill_call` events the pipeline emitted, whether
`skill.execute` was invoked, and the exact argument dict it received —
so that call/no-call properties are statable.
-/

inductive ParamValue where
  | str (s : String)
  | other (n : Nat)
  deriving DecidableEq

def Params := String → Option ParamValue

structure Skill (R : Type) where
  name : String
  description : String := ""
  risk_level : String
  rate_limit : String
  requires_approval : Bool
  max_calls_per_turn : Nat
  validate : Params → Except String (Bool × String)
  execute : Params → Except String R
  sanitize_output : R → Except String String

structure TraceEvent where
  skill_name : String
  params : Params
  status : String

structure ExecEnv where
  rate_limit_ok : Bool
  approval : Except String String

structure ExecOut where
  output : String
  trace : List TraceEvent
  executed : Bool
  execArg : Option Params

/-- The dict `\x7b**params, "_user_id": user_id\x7d` built at step 4. -/
def injectUserId (params : Params) (user_id : String) : Params :=
  fun k => if k == "_user_id" then some (ParamValue.str user_id) else params k

/-- Steps 4–6 of `execute_skill`: execute with the injected identity,
sanitize, trace. -/
def execute_phase {R : Type} (skill : Skill R) (params : Params) (user_id : String) :
    ExecOut :=
  let skill_name := skill.name
  let arg := injectUserId params user_id
  match skill.execute arg with
  | Except.error e =>
    { output := "[" ++ skill_name ++ "] Execution error: " ++ e
      trace := [{ skill_name := skill_name, params := params, status := "error" }]
      executed := true
      execArg := some arg }
  | Except.ok result =>
    match skill.sanitize_output result with
    | Except.error e =>
      { output := "[" ++ skill_name ++ "] Output sanitization error: " ++ e
        trace := [{ skill_name := skill_name, params := params, status := "error" }]
        executed := true
        execArg := some arg }
    | Except.ok sanitized =>
      { output := sanitized
        trace := [{ skill_name := skill_name, params := params, status := "success" }]
        executed := true
        execArg := some arg }

/-- `execute_skill`: the full pipeline.  Total by construction — every
outcome of every collaborator yields a result record, never an
exception. -/
def execute_skill {R : Type} (skill : Skill R) (params : Params) (env : ExecEnv)
    (auto_approve : Bool) (user_id : String) : ExecOut :=
  let skill_name := skill.name
  -- 1. Rate limit
  if !env.rate_limit_ok then
    { output := "[" ++ skill_name ++ "] Rate limit reached — try again later."
      trace := [{ skill_name := skill_name, params := params, status := "rate_limited" }]
      executed := false
      execArg := none }
  else
    -- 2. Validate (on the original params)
    match skill.validate params with
    | Except.error e =>
      { output := "[" ++ skill_name ++ "] Validation error: " ++ e
        trace := []
        executed := false
        execArg := none }
    | Except.ok (ok, reason) =>
      if !ok then
        { output := "[" ++ skill_name ++ "] Invalid parameters: " ++ reason
          trace := []
          executed := false
          execArg := none }
      else
        -- 3. Approval gate
        if skill.requires_approval && !auto_approve then
          match env.approval with
          | Except.error e =>
            { output := "[" ++ skill_name ++ "] Approval error: " ++ e
              trace := []
              executed := false
              execArg := none }
          | Except.ok resolution =>
            if resolution != "approved" then
              { output := "[" ++ skill_name ++ "] Skill execution was not approved."
                trace := []
                executed := false
                execArg := none }
            else execute_phase skill params user_id
        else execute_phase skill params user_id

/-! ### skill_runner.py — the refusal pattern and run_tool_loop -/

/-- Alternation of a list of expressions. -/
def altList (rs : List RE) : RE := rs.foldr RE.alt (RE.cls fun _ => false)

/-- `_REFUSAL_PATTERN` (case insensitive; `.` is any character). -/
def _REFUSAL_PATTERN : RE := altList [
  seqList [litCI "don", dot, litCI "t have real", dot, litCI "time"],
  seqList [litCI "real", dot, litCI "time capabilities"],
  seqList [litCI "real", dot, litCI "time access"],
  litCI "training data",
  litCI "knowledge cutoff",
  seqList [litCI "can", dot, litCI "t access the internet"],
  litCI "cannot access the internet",
  litCI "no internet access",
  litCI "not able to browse",
  litCI "cannot browse",
  seqList [litCI "don", dot, litCI "t have access to current"]
]

def _RETRY_NUDGE : String :=
  "You have a web_search tool available. Please use it now to find a current answer rather than relying on training data."

def FINAL_ANSWER_PROMPT : String :=
  "Please provide your final answer based on the information gathered so far."

/-- A tool call as delivered by the model: `function.name` and
`function.arguments`, the latter either a JSON string, a dict, or some
other value. -/
inductive RawArgs where
  | str (s : String)
  | obj (p : Params)
  | other

structure ToolCall where
  name : String
  args : RawArgs

/-- A conversation message; responses from the model use the same
shape (`content` plus optional `tool_calls`). -/
structure Msg where
  role : String
  content : String
  tool_calls : List ToolCall := []

/-- Argument parsing: a JSON string is parsed (empty dict on parse
failure), a dict is taken as is, anything else becomes an empty dict. -/
def parseArgs (jsonParse : String → Option Params) : RawArgs → Params
  | RawArgs.str s => (jsonParse s).getD fun _ => none
  | RawArgs.obj p => p
  | RawArgs.other => fun _ => none

/-- The collaborators of `run_tool_loop`: the model endpoint (a function
of the conversation so far), the JSON parser, and the policy/approval
outcomes observed by the k-th executor invocation of the turn. -/
structure LoopEnv (R : Type) where
  chat : List Msg → Msg
  jsonParse : String → Option Params
  outcomes : Nat → ExecEnv

/-- The mutable state of one turn of the loop. -/
structure TurnState where
  messages : List Msg
  counts : String → Nat
  skills_called : List String
  callIdx : Nat

structure LoopStats where
  iterations : Nat
  skills_called : List String

/-- The inner `for tool_call in tool_calls` loop. -/
def process_tool_calls {R : Type} (env : LoopEnv R)
    (registry : String → Option (Skill R)) (auto_approve : Bool) (user_id : String) :
    List ToolCall → TurnState → TurnState
  | [], ts => ts
  | tc :: rest, ts =>
    let params := parseArgs env.jsonParse tc.args
    match registry tc.name with
    | none =>
      process_tool_calls env registry auto_approve user_id rest
        { ts with messages := ts.messages ++
            [{ role := "tool", content := "[" ++ tc.name ++ "] Unknown skill — not registered." }] }
    | some skill =>
      let count := ts.counts skill.name
      if skill.max_calls_per_turn ≤ count then
        process_tool_calls env registry auto_approve user_id rest
          { ts with messages := ts.messages ++
              [{ role := "tool", content := "[" ++ skill.name ++ "] Per-turn call limit (" ++
                  toString skill.max_calls_per_turn ++ ") reached — try a different approach." }] }
      else
        let out := execute_skill skill params (env.outcomes ts.callIdx) auto_approve user_id
        process_tool_calls env registry auto_approve user_id rest
          { messages := ts.messages ++ [{ role := "tool", content := out.output }]
            counts := fun m => if m == skill.name then count + 1 else ts.counts m
            skills_called := ts.skills_called ++ [skill.name]
            callIdx := ts.callIdx + 1 }

/-- The `while iteration < max_iterations` loop; `fuel` is the number of
remaining iterations, so `fuel = 0` is the cap-exhausted exit. -/
def run_tool_loop_aux {R : Type} (env : LoopEnv R)
    (registry : String → Option (Skill R)) (auto_approve : Bool) (user_id : String) :
    Nat → Nat → TurnState → String × List Msg × LoopStats
  | 0, iteration, ts =>
    -- Max iterations reached — ask the model for a final answer
    let msgs1 := ts.messages ++ [{ role := "user", content := FINAL_ANSWER_PROMPT }]
    let text := (env.chat msgs1).content
    ("[max iterations reached]\n" ++ text,
     msgs1 ++ [{ role := "assistant", content := text }],
     { iterations := iteration, skills_called := ts.skills_called })
  | fuel + 1, iteration, ts =>
    let resp := env.chat ts.messages
    if resp.tool_calls.isEmpty then
      let text := resp.content
      -- One-shot refusal nudge
      if iteration == 0 && ts.skills_called.isEmpty && reSearch _REFUSAL_PATTERN text then
        run_tool_loop_aux env registry auto_approve user_id fuel (iteration + 1)
          { ts with messages := ts.messages ++
              [{ role := "assistant", content := text }, { role := "user", content := _RETRY_NUDGE }] }
      else
        (text, ts.messages ++ [{ role := "assistant", content := text }],
         { iterations := iteration, skills_called := ts.skills_called })
    else
      let ts1 := { ts with messages := ts.messages ++ [{ resp with role := "assistant" }] }
      let ts2 := process_tool_calls env registry auto_approve user_id resp.tool_calls ts1
      run_tool_loop_aux env registry auto_approve user_id fuel (iteration + 1) ts2

/-- Python truthiness of the `tools` argument (`None` or `[]` skip the
loop). -/
def toolsFalsy (tools : Option (List Unit)) : Bool := (tools.getD []).isEmpty

/-- `run_tool_loop`. -/
def run_tool_loop {R : Type} (env : LoopEnv R) (messages : List Msg)
    (tools : Option (List Unit)) (registry : String → Option (Skill R))
    (auto_approve : Bool) (user_id : String) (max_iterations : Nat) :
    String × List Msg × LoopStats :=
  if toolsFalsy tools then
    let text := (env.chat messages).content
    (text, messages ++ [{ role := "assistant", content := text }],
     { iterations := 0, skills_called := [] })
  else
    run_tool_loop_aux env registry auto_approve user_id max_iterations 0
      { messages := messages, counts := fun _ => 0, skills_called := [], callIdx := 0 }

/-! ### String containment (used to speak about serialized trace lines) -/

/-- Does the text start with the pattern? -/
def beginsWith : List Char → List Char → Bool
  | [], _ => true
  | _ :: _, [] => false
  | a :: as, b :: bs => a == b && beginsWith as bs

/-- Does the pattern occur anywhere in the text? -/
def occursIn (pat : List Char) : List Char → Bool
  | [] => beginsWith pat []
  | c :: rest => beginsWith pat (c :: rest) || occursIn pat rest

/-- Substring test on strings. -/
def containsStr (hay needle : String) : Bool := occursIn needle.data hay.data

/-! ### tracing.py — JSON values, secret redaction, the emitted line

JSON-serializable Python values, as a mutual family so that every
function on them is plain structural recursion.  A dict is an ordered
association list (Python dicts preserve insertion order, which fixes
the serialized form).
-/

mutual
inductive JValue where
  | null
  | bool (b : Bool)
  | num (n : Int)
  | str (s : String)
  | arr (elems : JArr)
  | dict (entries : JDict)
inductive JArr where
  | nil
  | cons (head : JValue) (tail : JArr)
inductive JDict where
  | nil
  | cons (key : String) (val : JValue) (tail : JDict)
end

def _SENSITIVE_KEYS : List String :=
  ["password", "token", "secret", "api_key", "apikey", "api_secret"]

mutual
/-- The value transform of one entry of `tracing._sanitize`: a dict
value is recursed into, any other value is kept as is (in particular a
list is kept whole, dicts inside it included). -/
def _sanitize_value : JValue → JValue
  | JValue.dict es => JValue.dict (_sanitize es)
  | v => v
/-- `tracing._sanitize`: redact entries whose lower-cased key is
sensitive, recurse into dict values, keep everything else. -/
def _sanitize : JDict → JDict
  | JDict.nil => JDict.nil
  | JDict.cons k v rest =>
    if _SENSITIVE_KEYS.contains (strLower k) then
      JDict.cons k (JValue.str "***REDACTED***") (_sanitize rest)
    else
      JDict.cons k (_sanitize_value v) (_sanitize rest)
end

/-- One hex digit (lower case), as emitted by `json.dumps`. -/
def hexChar (n : Nat) : Char :=
  if n < 10 then Char.ofNat (48 + n) else Char.ofNat (87 + n)

def hex4 (n : Nat) : String :=
  String.mk [hexChar (n / 4096 % 16), hexChar (n / 256 % 16), hexChar (n / 16 % 16), hexChar (n % 16)]

/-- `json.dumps` escaping of one character (`ensure_ascii` default:
controls and non-ASCII become `\uXXXX`; code points beyond the basic
plane would use surrogate pairs, elided here). -/
def escChar (c : Char) : String :=
  if c == '"' then "\\\""
  else if c == '\\' then "\\\\"
  else if c == '\n' then "\\n"
  else if c == '\t' then "\\t"
  else if c == '\r' then "\\r"
  else if c == '\x08' then "\\b"
  else if c == '\x0c' then "\\f"
  else if c.toNat < 32 || 128 ≤ c.toNat then "\\u" ++ hex4 c.toNat
  else String.singleton c

def escStr (s : String) : String :=
  "\"" ++ String.join (s.data.map escChar) ++ "\""

mutual
/-- `json.dumps` with its default separators. -/
def serialize : JValue → String
  | JValue.null => "null"
  | JValue.bool b => if b then "true" else "false"
  | JValue.num n => toString n
  | JValue.str s => escStr s
  | JValue.arr xs => "[" ++ serArr xs ++ "]"
  | JValue.dict es => "\x7b" ++ serDict es ++ "\x7d"
def serArr : JArr → String
  | JArr.nil => ""
  | JArr.cons v JArr.nil => serialize v
  | JArr.cons v rest => serialize v ++ ", " ++ serArr rest
def serDict : JDict → String
  | JDict.nil => ""
  | JDict.cons k v JDict.nil => escStr k ++ ": " ++ serialize v
  | JDict.cons k v rest => escStr k ++ ": " ++ serialize v ++ ", " ++ serDict rest
end

/-- The JSON line `tracing.log_skill_call` emits through `_emit`: the
event envelope (`event_type`, `timestamp`, then the trace context),
then `skill_name`, the sanitized `params`, and the keyword extras
(`status`, `duration_ms`, …), in Python dict-update order. -/
def log_skill_call_line (trace_id user_id channel : String) (timestamp : JValue)
    (skill_name : String) (params : JDict) (extra : JDict) : String :=
  serialize (JValue.dict (
    JDict.cons "event_type" (JValue.str "skill") (
    JDict.cons "timestamp" timestamp (
    JDict.cons "trace_id" (JValue.str trace_id) (
    JDict.cons "user_id" (JValue.str user_id) (
    JDict.cons "channel" (JValue.str channel) (
    JDict.cons "skill_name" (JValue.str skill_name) (
    JDict.cons "params" (JValue.dict (_sanitize params)) extra))))))))

mutual
/-- A sensitive key reachable through dict values only (the nesting the
source walks). -/
def valueHasSensitive : JValue → Bool
  | JValue.dict es => dictHasSensitive es
  | _ => false
def dictHasSensitive : JDict → Bool
  | JDict.nil => false
  | JDict.cons k v rest =>
    _SENSITIVE_KEYS.contains (strLower k) || valueHasSensitive v || dictHasSensitive rest
end

mutual
/-- Does the string occur as a string value anywhere in the tree? -/
def occursVal (s : String) : JValue → Bool
  | JValue.str t => t == s
  | JValue.arr xs => occursArr s xs
  | JValue.dict es => occursDict s es
  | _ => false
def occursArr (s : String) : JArr → Bool
  | JArr.nil => false
  | JArr.cons v rest => occursVal s v || occursArr s rest
def occursDict (s : String) : JDict → Bool
  | JDict.nil => false
  | JDict.cons _ v rest => occursVal s v || occursDict s rest
end

mutual
/-- Occurrences of the string that redaction does not erase: anything
under a sensitive key (the whole value is replaced) is protected;
anything else — including everything inside arrays, which the walk
never enters — is not. -/
def occursUnprotected (s : String) : JValue → Bool
  | JValue.str t => t == s
  | JValue.arr xs => occursArr s xs
  | JValue.dict es => occursDictUnprotected s es
  | _ => false
def occursDictUnprotected (s : String) : JDict → Bool
  | JDict.nil => false
  | JDict.cons k v rest =>
    (if _SENSITIVE_KEYS.contains (strLower k) then false else occursUnprotected s v) ||
    occursDictUnprotected s rest
end

mutual
/-- After sanitization: every dict-reachable sensitive key holds the
redaction marker. -/
def sensRedactedV : JValue → Bool
  | JValue.dict es => sensRedacted es
  | _ => true
def sensRedacted : JDict → Bool
  | JDict.nil => true
  | JDict.cons k v rest =>
    (if _SENSITIVE_KEYS.contains (strLower k) then
      match v with
      | JValue.str t => t == "***REDACTED***"
      | _ => false
     else sensRedactedV v) && sensRedacted rest
end

/-! ### Derived counters and concrete fixtures used by the theorems -/

/-- Number of synthesized refusal-nudge user messages in a message list. -/
def countNudge (msgs : List Msg) : Nat :=
  msgs.countP fun m => m.role == "user" && m.content == _RETRY_NUDGE

/-- A policy configuration document with nothing configured. -/
def cfgEmpty : PolicyConfig :=
  { external_access := { denied_url_patterns := [], rules := fun _ => none }
    rate_limits := fun _ => none }

/-- The empty parameter dict. -/
def emptyParams : Params := fun _ => none

/-- A parameter dict carrying only a forged `_user_id`. -/
def spoofParams : Params :=
  fun k => if k == "_user_id" then some (ParamValue.str "attacker") else none

/-- A benign skill whose validation always rejects. -/
def skillRejecting : Skill Unit :=
  { name := "good_skill"
    risk_level := "low"
    rate_limit := "default"
    requires_approval := false
    max_calls_per_turn := 5
    validate := fun _ => Except.ok (false, "text must be non-empty")
    execute := fun _ => Except.ok ()
    sanitize_output := fun _ => Except.ok "ok" }

/-- A benign skill that accepts and succeeds. -/
def skillGood : Skill Unit :=
  { name := "good_skill"
    risk_level := "low"
    rate_limit := "default"
    requires_approval := false
    max_calls_per_turn := 3
    validate := fun _ => Except.ok (true, "")
    execute := fun _ => Except.ok ()
    sanitize_output := fun _ => Except.ok "result" }

/-- Collaborator outcomes: everything passes. -/
def envPass : ExecEnv := { rate_limit_ok := true, approval := Except.ok "approved" }

/-- Collaborator outcomes: the rate limit denies. -/
def envRateDenied : ExecEnv := { rate_limit_ok := false, approval := Except.ok "approved" }

/-- A registry holding `web_search` (capped at 3 calls per turn). -/
def regWS : String → Option (Skill Unit) :=
  fun n => if n == "web_search" then
    some { name := "web_search"
           risk_level := "low"
           rate_limit := "web_search"
           requires_approval := false
           max_calls_per_turn := 3
           validate := fun _ => Except.ok (true, "")
           execute := fun _ => Except.ok ()
           sanitize_output := fun _ => Except.ok "result" }
  else none

/-- A model endpoint that first refuses, then uses the tool once, then
answers. -/
def envRefusal : LoopEnv Unit :=
  { chat := fun msgs =>
      if msgs.length == 1 then
        { role := "assistant", content := "I cannot browse the internet." }
      else if msgs.length == 3 then
        { role := "assistant", content := ""
          tool_calls := [{ name := "web_search", args := RawArgs.other }] }
      else
        { role := "assistant", content := "Answer." }
    jsonParse := fun _ => none
    outcomes := fun _ => envPass }

/-- A single opening user message. -/
def msgsHi : List Msg := [{ role := "user", content := "hi" }]

/-- A fresh approval store. -/
def emptyAStore : AStore := fun _ => none

/-- Counterexample store: record `a` created and resolved to approved. -/
def cexResolved : Bool × AStore :=
  resolve (create_request emptyAStore "a" "skill:demo" "external" "high" "run" "demo" none 0)
    "a" "approved" "owner" 1

/-- Counterexample: first resolve passes the string `pending`. -/
def cexPendingR1 : Bool × AStore :=
  resolve (create_request emptyAStore "b" "skill:demo" "external" "high" "run" "demo" none 0)
    "b" "pending" "owner" 1

/-- …and a second resolve then succeeds as well. -/
def cexPendingR2 : Bool × AStore :=
  resolve cexPendingR1.2 "b" "approved" "owner" 2

/-- A well-formed demo trace: one create, two resolve attempts. -/
def opsDemo : List AOp :=
  [AOp.create "a" "skill:demo" "external" "high" "run" "demo" none 0,
   AOp.resolveOp "a" "approved" "owner" 1,
   AOp.resolveOp "a" "denied" "other" 2]

/-! ## Characterization lemmas for the executor pipeline -/

theorem execute_skill_rate_limited {R : Type} (skill : Skill R) (params : Params)
    (env : ExecEnv) (auto_approve : Bool) (user_id : String)
    (h : env.rate_limit_ok = false) :
    execute_skill skill params env auto_approve user_id =
      { output := "[" ++ skill.name ++ "] Rate limit reached — try again later."
        trace := [{ skill_name := skill.name, params := params, status := "rate_limited" }]
        executed := false
        execArg := none } := by
  simp [execute_skill, h]

theorem execute_skill_validate_error {R : Type} (skill : Skill R) (params : Params)
    (env : ExecEnv) (auto_approve : Bool) (user_id : String) (e : String)
    (hr : env.rate_limit_ok = true) (hv : skill.validate params = Except.error e) :
    execute_skill skill params env auto_approve user_id =
      { output := "[" ++ skill.name ++ "] Validation error: " ++ e
        trace := []
        executed := false
        execArg := none } := by
  simp [execute_skill, hr, hv]

theorem execute_skill_invalid {R : Type} (skill : Skill R) (params : Params)
    (env : ExecEnv) (auto_approve : Bool) (user_id : String) (reason : String)
    (hr : env.rate_limit_ok = true) (hv : skill.validate params = Except.ok (false, reason)) :
    execute_skill skill params env auto_approve user_id =
      { output := "[" ++ skill.name ++ "] Invalid parameters: " ++ reason
        trace := []
        executed := false
        execArg := none } := by
  simp [execute_skill, hr, hv]

theorem execute_skill_approval_error {R : Type} (skill : Skill R) (params : Params)
    (env : ExecEnv) (auto_approve : Bool) (user_id : String) (reason e : String)
    (hr : env.rate_limit_ok = true) (hv : skill.validate params = Except.ok (true, reason))
    (hreq : skill.requires_approval = true) (hauto : auto_approve = false)
    (ha : env.approval = Except.error e) :
    execute_skill skill params env auto_approve user_id =
      { output := "[" ++ skill.name ++ "] Approval error: " ++ e
        trace := []
        executed := false
        execArg := none } := by
  simp [execute_skill, hr, hv, hreq, hauto, ha]

theorem execute_skill_not_approved {R : Type} (skill : Skill R) (params : Params)
    (env : ExecEnv) (auto_approve : Bool) (user_id : String) (reason res : String)
    (hr : env.rate_limit_ok = true) (hv : skill.validate params = Except.ok (true, reason))
    (hreq : skill.requires_approval = true) (hauto : auto_approve = false)
    (ha : env.approval = Except.ok res) (hres : res ≠ "approved") :
    execute_skill skill params env auto_approve user_id =
      { output := "[" ++ skill.name ++ "] Skill execution was not approved."
        trace := []
        executed := false
        execArg := none } := by
  simp [execute_skill, hr, hv, hreq, hauto, ha, hres]

theorem execute_skill_gates_passed {R : Type} (skill : Skill R) (params : Params)
    (env : ExecEnv) (auto_approve : Bool) (user_id : String) (reason : String)
    (hr : env.rate_limit_ok = true) (hv : skill.validate params = Except.ok (true, reason))
    (hgate : (skill.requires_approval && !auto_approve) = false ∨
      env.approval = Except.ok "approved") :
    execute_skill skill params env auto_approve user_id = execute_phase skill params user_id := by
  rcases hgate with hgate | hgate
  · simp [execute_skill, hr, hv, hgate]
  · by_cases hb : (skill.requires_approval && !auto_approve) = true
    · simp [execute_skill, hr, hv, hb, hgate]
    · simp only [Bool.not_eq_true] at hb
      simp [execute_skill, hr, hv, hb]

theorem execute_phase_exec_error {R : Type} (skill : Skill R) (params : Params)
    (user_id : String) (e : String)
    (he : skill.execute (injectUserId params user_id) = Except.error e) :
    execute_phase skill params user_id =
      { output := "[" ++ skill.name ++ "] Execution error: " ++ e
        trace := [{ skill_name := skill.name, params := params, status := "error" }]
        executed := true
        execArg := some (injectUserId params user_id) } := by
  simp [execute_phase, he]

theorem execute_phase_sanitize_error {R : Type} (skill : Skill R) (params : Params)
    (user_id : String) (r : R) (e : String)
    (he : skill.execute (injectUserId params user_id) = Except.ok r)
    (hs : skill.sanitize_output r = Except.error e) :
    execute_phase skill params user_id =
      { output := "[" ++ skill.name ++ "] Output sanitization error: " ++ e
        trace := [{ skill_name := skill.name, params := params, status := "error" }]
        executed := true
        execArg := some (injectUserId params user_id) } := by
  simp [execute_phase, he, hs]

theorem execute_phase_success {R : Type} (skill : Skill R) (params : Params)
    (user_id : String) (r : R) (s : String)
    (he : skill.execute (injectUserId params user_id) = Except.ok r)
    (hs : skill.sanitize_output r = Except.ok s) :
    execute_phase skill params user_id =
      { output := s
        trace := [{ skill_name := skill.name, params := params, status := "success" }]
        executed := true
        execArg := some (injectUserId params user_id) } := by
  simp [execute_phase, he, hs]

/-- The argument handed to `skill.execute`, when it is handed one, is
always the identity-injected dict. -/
theorem execute_skill_execArg {R : Type} (skill : Skill R) (params : Params)
    (env : ExecEnv) (auto_approve : Bool) (user_id : String) (a : Params)
    (h : (execute_skill skill params env auto_approve user_id).execArg = some a) :
    a = injectUserId params user_id := by
  by_cases hr : env.rate_limit_ok = true
  · rcases hv : skill.validate params with e | ⟨ok, reason⟩
    · rw [execute_skill_validate_error skill params env auto_approve user_id e hr hv] at h
      simp at h
    · cases ok with
      | false =>
        rw [execute_skill_invalid skill params env auto_approve user_id reason hr hv] at h
        simp at h
      | true =>
        by_cases hb : (skill.requires_approval && !auto_approve) = true
        · rcases ha : env.approval with e | res
          · rw [execute_skill_approval_error skill params env auto_approve user_id reason e hr hv
                (by exact (Bool.and_eq_true _ _).mp hb |>.1)
                (by simpa using (Bool.and_eq_true _ _).mp hb |>.2) ha] at h
            simp at h
          · by_cases hres : res = "approved"
            · subst hres
              rw [execute_skill_gates_passed skill params env auto_approve user_id reason hr hv
                (Or.inr ha)] at h
              rcases he : skill.execute (injectUserId params user_id) with e | r
              · rw [execute_phase_exec_error skill params user_id e he] at h
                simpa using h.symm
              · rcases hs : skill.sanitize_output r with e | s
                · rw [execute_phase_sanitize_error skill params user_id r e he hs] at h
                  simpa using h.symm
                · rw [execute_phase_success skill params user_id r s he hs] at h
                  simpa using h.symm
            · rw [execute_skill_not_approved skill params env auto_approve user_id reason res hr hv
                (by exact (Bool.and_eq_true _ _).mp hb |>.1)
                (by simpa using (Bool.and_eq_true _ _).mp hb |>.2) ha hres] at h
              simp at h
        · simp only [Bool.not_eq_true] at hb
          rw [execute_skill_gates_passed skill params env auto_approve user_id reason hr hv
            (Or.inl hb)] at h
          rcases he : skill.execute (injectUserId params user_id) with e | r
          · rw [execute_phase_exec_error skill params user_id e he] at h
            simpa using h.symm
          · rcases hs : skill.sanitize_output r with e | s
            · rw [execute_phase_sanitize_error skill params user_id r e he hs] at h
              simpa using h.symm
            · rw [execute_phase_success skill params user_id r s he hs] at h
              simpa using h.symm
  · simp only [Bool.not_eq_true] at hr
    rw [execute_skill_rate_limited skill params env auto_approve user_id hr] at h
    simp at h

/-- Splitting a diagnostic string at the bracket close. -/
theorem diag_shape (n msg rest : String) (h : rest = "] " ++ msg) :
    "[" ++ n ++ rest = "[" ++ n ++ "] " ++ msg := by
  subst h
  simp [String.append_assoc]

/-- Splitting a diagnostic string with a variable tail. -/
theorem diag_split (n pre post tail : String) (h : pre = "] " ++ post) :
    "[" ++ n ++ pre ++ tail = "[" ++ n ++ "] " ++ (post ++ tail) := by
  subst h
  simp [String.append_assoc]

/-! ## Claim C2 -/

/-- Claim C2: every command matching one of the compiled-in hard deny
patterns is denied with critical risk by check_shell_command, whatever
the loaded policy configuration is — the configuration does not enter
the check at all. -/
theorem C2_hard_deny_unconditional (config : PolicyConfig) (command : String)
    (h : (is_denied_command command).1 = true) :
    (check_shell_command config command).decision = Decision.deny ∧
    (check_shell_command config command).risk_level = RiskLevel.critical := by
  rcases hd : is_denied_command command with ⟨b, p⟩
  rw [hd] at h
  simp only at h
  subst h
  simp [check_shell_command, hd]

/-- Witness for C2 at the concrete command `rm -rf /tmp`. -/
theorem C2_hard_deny_unconditional_witness :
    (is_denied_command "rm -rf /tmp").1 = true ∧
    (check_shell_command cfgEmpty "rm -rf /tmp").decision = Decision.deny ∧
    (check_shell_command cfgEmpty "rm -rf /tmp").risk_level = RiskLevel.critical :=
  ⟨by decide, C2_hard_deny_unconditional cfgEmpty "rm -rf /tmp" (by decide)⟩

/-! ## Claim C5 -/

/-- Claim C5 counterexample: with no rule configured for any method and
no denied patterns, a GET request yields requires_approval — not allow
as the claim states; the compiled-in default of the per-method lookup
is requires_approval for every method. -/
theorem C5_counterexample :
    (check_http_access cfgEmpty "https://example.com" "GET").decision ≠ Decision.allow ∧
    (check_http_access cfgEmpty "https://example.com" "GET").decision =
      Decision.requires_approval := by
  constructor <;> decide

/-- Claim C5 (amended): for every URL matching no denied pattern, when
the configuration holds no rule for the request method, check_http_access
returns requires_approval for every method — GET as well as POST, PUT
and DELETE. -/
theorem C5_amended (config : PolicyConfig) (url method : String)
    (hpat : ∀ p ∈ config.external_access.denied_url_patterns, p.2 url = false)
    (hrule : config.external_access.rules (method_cfg_key (strUpper method)) = none) :
    (check_http_access config url method).decision = Decision.requires_approval := by
  have hfind : config.external_access.denied_url_patterns.find? (fun p => p.2 url) = none := by
    apply List.find?_eq_none.mpr
    intro p hp
    simp [hpat p hp]
  simp [check_http_access, hfind, hrule, _rule_to_decision]

/-- Witness for the amended C5 at a concrete GET request. -/
theorem C5_amended_witness :
    (∀ p ∈ cfgEmpty.external_access.denied_url_patterns, p.2 "https://example.com" = false) ∧
    cfgEmpty.external_access.rules (method_cfg_key (strUpper "GET")) = none ∧
    (check_http_access cfgEmpty "https://example.com" "GET").decision =
      Decision.requires_approval :=
  ⟨by simp [cfgEmpty], rfl,
    C5_amended cfgEmpty "https://example.com" "GET" (by simp [cfgEmpty]) rfl⟩

/-! ## Claim C4 -/

/-- Claim C4: execute_skill is a total function of every collaborator
outcome — each fallible sub-call is handled — and its result is a
string that is either the sanitized success value or a diagnostic of
the form "[<skill>] <message>". -/
theorem C4_never_raises {R : Type} (skill : Skill R) (params : Params) (env : ExecEnv)
    (auto_approve : Bool) (user_id : String) :
    (∃ msg, (execute_skill skill params env auto_approve user_id).output =
        "[" ++ skill.name ++ "] " ++ msg) ∨
    (∃ r s, skill.execute (injectUserId params user_id) = Except.ok r ∧
        skill.sanitize_output r = Except.ok s ∧
        (execute_skill skill params env auto_approve user_id).output = s) := by
  by_cases hr : env.rate_limit_ok = true
  · rcases hv : skill.validate params with e | ⟨ok, reason⟩
    · refine Or.inl ⟨"Validation error: " ++ e, ?_⟩
      rw [execute_skill_validate_error skill params env auto_approve user_id e hr hv]
      exact diag_split _ _ "Validation error: " e rfl
    · cases ok with
      | false =>
        refine Or.inl ⟨"Invalid parameters: " ++ reason, ?_⟩
        rw [execute_skill_invalid skill params env auto_approve user_id reason hr hv]
        exact diag_split _ _ "Invalid parameters: " reason rfl
      | true =>
        have hphase : (∃ msg, (execute_phase skill params user_id).output =
            "[" ++ skill.name ++ "] " ++ msg) ∨
            (∃ r s, skill.execute (injectUserId params user_id) = Except.ok r ∧
              skill.sanitize_output r = Except.ok s ∧
              (execute_phase skill params user_id).output = s) := by
          rcases he : skill.execute (injectUserId params user_id) with e | r
          · refine Or.inl ⟨"Execution error: " ++ e, ?_⟩
            rw [execute_phase_exec_error skill params user_id e he]
            exact diag_split _ _ "Execution error: " e rfl
          · rcases hs : skill.sanitize_output r with e | s
            · refine Or.inl ⟨"Output sanitization error: " ++ e, ?_⟩
              rw [execute_phase_sanitize_error skill params user_id r e he hs]
              exact diag_split _ _ "Output sanitization error: " e rfl
            · refine Or.inr ⟨r, s, rfl, hs, ?_⟩
              rw [execute_phase_success skill params user_id r s he hs]
        by_cases hb : (skill.requires_approval && !auto_approve) = true
        · rcases ha : env.approval with e | res
          · refine Or.inl ⟨"Approval error: " ++ e, ?_⟩
            rw [execute_skill_approval_error skill params env auto_approve user_id reason e hr hv
              ((Bool.and_eq_true _ _).mp hb).1 (by simpa using ((Bool.and_eq_true _ _).mp hb).2) ha]
            exact diag_split _ _ "Approval error: " e rfl
          · by_cases hres : res = "approved"
            · subst hres
              rw [execute_skill_gates_passed skill params env auto_approve user_id reason hr hv
                (Or.inr ha)]
              exact hphase
            · refine Or.inl ⟨"Skill execution was not approved.", ?_⟩
              rw [execute_skill_not_approved skill params env auto_approve user_id reason res hr hv
                ((Bool.and_eq_true _ _).mp hb).1 (by simpa using ((Bool.and_eq_true _ _).mp hb).2)
                ha hres]
              exact diag_shape _ _ _ (by rfl)
        · simp only [Bool.not_eq_true] at hb
          rw [execute_skill_gates_passed skill params env auto_approve user_id reason hr hv
            (Or.inl hb)]
          exact hphase
  · simp only [Bool.not_eq_true] at hr
    refine Or.inl ⟨"Rate limit reached — try again later.", ?_⟩
    rw [execute_skill_rate_limited skill params env auto_approve user_id hr]
    exact diag_shape _ _ _ (by rfl)

/-! ## Claim C6 -/

/-- Claim C6 counterexample: a validation failure terminates the
pipeline with an error string but records zero trace events, not
exactly one as the claim states (the same holds for approval failures). -/
theorem C6_counterexample :
    (execute_skill skillRejecting emptyParams envPass true "u1").trace.length = 0 ∧
    (execute_skill skillRejecting emptyParams envPass true "u1").output =
      "[good_skill] Invalid parameters: text must be non-empty" := by
  constructor <;> rfl

/-- Claim C6 (amended): a failing rate-limit, execution, or
sanitization step terminates the pipeline with an error string and
exactly one trace event; a failing validation or approval step also
terminates with an error string but records no trace event. -/
theorem C6_amended {R : Type} (skill : Skill R) (params : Params) (env : ExecEnv)
    (auto_approve : Bool) (user_id : String) :
    (env.rate_limit_ok = false →
      (execute_skill skill params env auto_approve user_id).trace.map TraceEvent.status =
        ["rate_limited"] ∧
      ∃ msg, (execute_skill skill params env auto_approve user_id).output =
        "[" ++ skill.name ++ "] " ++ msg) ∧
    (∀ e, env.rate_limit_ok = true → skill.validate params = Except.error e →
      (execute_skill skill params env auto_approve user_id).trace = [] ∧
      ∃ msg, (execute_skill skill params env auto_approve user_id).output =
        "[" ++ skill.name ++ "] " ++ msg) ∧
    (∀ reason, env.rate_limit_ok = true → skill.validate params = Except.ok (false, reason) →
      (execute_skill skill params env auto_approve user_id).trace = [] ∧
      ∃ msg, (execute_skill skill params env auto_approve user_id).output =
        "[" ++ skill.name ++ "] " ++ msg) ∧
    (∀ reason res, env.rate_limit_ok = true → skill.validate params = Except.ok (true, reason) →
      skill.requires_approval = true → auto_approve = false → env.approval = Except.ok res →
      res ≠ "approved" →
      (execute_skill skill params env auto_approve user_id).trace = [] ∧
      ∃ msg, (execute_skill skill params env auto_approve user_id).output =
        "[" ++ skill.name ++ "] " ++ msg) ∧
    (∀ e, skill.execute (injectUserId params user_id) = Except.error e →
      (execute_phase skill params user_id).trace.map TraceEvent.status = ["error"] ∧
      ∃ msg, (execute_phase skill params user_id).output =
        "[" ++ skill.name ++ "] " ++ msg) ∧
    (∀ r e, skill.execute (injectUserId params user_id) = Except.ok r →
      skill.sanitize_output r = Except.error e →
      (execute_phase skill params user_id).trace.map TraceEvent.status = ["error"] ∧
      ∃ msg, (execute_phase skill params user_id).output =
        "[" ++ skill.name ++ "] " ++ msg) := by
  refine ⟨?_, ?_, ?_, ?_, ?_, ?_⟩
  · intro h
    rw [execute_skill_rate_limited skill params env auto_approve user_id h]
    exact ⟨rfl, ⟨"Rate limit reached — try again later.", diag_shape _ _ _ (by rfl)⟩⟩
  · intro e hr hv
    rw [execute_skill_validate_error skill params env auto_approve user_id e hr hv]
    exact ⟨rfl, ⟨"Validation error: " ++ e, diag_split _ _ "Validation error: " e rfl⟩⟩
  · intro reason hr hv
    rw [execute_skill_invalid skill params env auto_approve user_id reason hr hv]
    exact ⟨rfl, ⟨"Invalid parameters: " ++ reason, diag_split _ _ "Invalid parameters: " reason rfl⟩⟩
  · intro reason res hr hv hreq hauto ha hres
    rw [execute_skill_not_approved skill params env auto_approve user_id reason res hr hv
      hreq hauto ha hres]
    exact ⟨rfl, ⟨"Skill execution was not approved.", diag_shape _ _ _ (by rfl)⟩⟩
  · intro e he
    rw [execute_phase_exec_error skill params user_id e he]
    exact ⟨rfl, ⟨"Execution error: " ++ e, diag_split _ _ "Execution error: " e rfl⟩⟩
  · intro r e he hs
    rw [execute_phase_sanitize_error skill params user_id r e he hs]
    exact ⟨rfl, ⟨"Output sanitization error: " ++ e, diag_split _ _ "Output sanitization error: " e rfl⟩⟩

/-- Witness for the amended C6 at a concrete rate-limited invocation. -/
theorem C6_amended_witness :
    envRateDenied.rate_limit_ok = false ∧
    (execute_skill skillGood emptyParams envRateDenied true "u1").trace.map TraceEvent.status =
      ["rate_limited"] ∧
    ∃ msg, (execute_skill skillGood emptyParams envRateDenied true "u1").output =
      "[" ++ skillGood.name ++ "] " ++ msg :=
  ⟨rfl, ((C6_amended skillGood emptyParams envRateDenied true "u1").1 rfl).1,
    ((C6_amended skillGood emptyParams envRateDenied true "u1").1 rfl).2⟩

/-! ## Claim C10 -/

/-- Claim C10: the reserved user-identity key cannot be spoofed — two
parameter dicts differing only in `_user_id` produce the same injected
dict, and whenever execute_skill hands an argument dict to the skill,
that dict is exactly the injected one, so both invocations hand the
identical dict. -/
theorem C10_user_id_unspoofable {R : Type} (skill : Skill R) (p1 p2 : Params)
    (env : ExecEnv) (auto_approve : Bool) (user_id : String)
    (h : ∀ k, k ≠ "_user_id" → p1 k = p2 k) :
    injectUserId p1 user_id = injectUserId p2 user_id ∧
    (∀ a, (execute_skill skill p1 env auto_approve user_id).execArg = some a →
      a = injectUserId p1 user_id) ∧
    (∀ a1 a2, (execute_skill skill p1 env auto_approve user_id).execArg = some a1 →
      (execute_skill skill p2 env auto_approve user_id).execArg = some a2 → a1 = a2) := by
  have hinj : injectUserId p1 user_id = injectUserId p2 user_id := by
    funext k
    unfold injectUserId
    by_cases hk : k = "_user_id"
    · simp [hk]
    · simp only [beq_iff_eq, hk, if_false]
      exact h k hk
  refine ⟨hinj, fun a ha => execute_skill_execArg skill p1 env auto_approve user_id a ha, ?_⟩
  intro a1 a2 h1 h2
  rw [execute_skill_execArg skill p1 env auto_approve user_id a1 h1,
    execute_skill_execArg skill p2 env auto_approve user_id a2 h2, hinj]

/-- Witness for C10: a forged `_user_id` against no `_user_id` at all. -/
theorem C10_user_id_unspoofable_witness :
    (∀ k, k ≠ "_user_id" → spoofParams k = emptyParams k) ∧
    injectUserId spoofParams "u1" = injectUserId emptyParams "u1" :=
  have h : ∀ k, k ≠ "_user_id" → spoofParams k = emptyParams k := fun k hk => by
    simp only [spoofParams, emptyParams, beq_iff_eq, hk, if_false]
  ⟨h, (C10_user_id_unspoofable skillGood spoofParams emptyParams envPass true "u1" h).1⟩

/-! ## Loop invariants for the per-turn cap (C1) -/

/-- Through the inner tool-call loop, the per-skill counters stay equal
to the occurrence counts in `skills_called` and below each cap. -/
theorem process_tool_calls_inv {R : Type} (env : LoopEnv R)
    (registry : String → Option (Skill R)) (auto_approve : Bool) (user_id : String)
    (hwf : ∀ n s, registry n = some s → s.name = n) :
    ∀ (tcs : List ToolCall) (ts : TurnState),
      (∀ m, ts.counts m = ts.skills_called.count m) →
      (∀ n s, registry n = some s → ts.counts n ≤ s.max_calls_per_turn) →
      (∀ m, (process_tool_calls env registry auto_approve user_id tcs ts).counts m =
        (process_tool_calls env registry auto_approve user_id tcs ts).skills_called.count m) ∧
      (∀ n s, registry n = some s →
        (process_tool_calls env registry auto_approve user_id tcs ts).counts n ≤
          s.max_calls_per_turn) := by
  intro tcs
  induction tcs with
  | nil => intro ts h1 h2; exact ⟨h1, h2⟩
  | cons tc rest ih =>
    intro ts h1 h2
    simp only [process_tool_calls]
    rcases hreg : registry tc.name with _ | skill
    · exact ih _ h1 h2
    · by_cases hcap : skill.max_calls_per_turn ≤ ts.counts skill.name
      · simp only [hcap, if_true]
        exact ih _ h1 h2
      · simp only [hcap, if_false]
        have hname : skill.name = tc.name := hwf _ _ hreg
        refine ih _ ?_ ?_
        · intro m
          simp only [List.count_append]
          by_cases hm : m = skill.name
          · rw [hm]
            simp [h1 skill.name]
          · have hb : (m == skill.name) = false := by simp [hm]
            have hb2 : (skill.name == m) = false := by simp [Ne.symm hm]
            simp only [hb, if_false]
            rw [h1 m]
            simp [List.count_cons, hb2]
        · intro n s hn
          by_cases hm : n = skill.name
          · have hs : s = skill := by
              rw [hm, hname] at hn
              rw [hreg] at hn
              exact (Option.some.inj hn).symm
            rw [hm] at hn ⊢
            subst hs
            simp only [beq_self_eq_true, if_true]
            omega
          · have hb : (n == skill.name) = false := by simp [hm]
            simp only [hb, if_false]
            exact h2 n s hn

/-- The final `skills_called` of the outer loop respects every cap,
given that the counters do at entry. -/
theorem run_tool_loop_aux_cap {R : Type} (env : LoopEnv R)
    (registry : String → Option (Skill R)) (auto_approve : Bool) (user_id : String)
    (hwf : ∀ n s, registry n = some s → s.name = n) :
    ∀ (fuel iteration : Nat) (ts : TurnState),
      (∀ m, ts.counts m = ts.skills_called.count m) →
      (∀ n s, registry n = some s → ts.counts n ≤ s.max_calls_per_turn) →
      ∀ n s, registry n = some s →
        (run_tool_loop_aux env registry auto_approve user_id fuel iteration
          ts).2.2.skills_called.count n ≤ s.max_calls_per_turn := by
  intro fuel
  induction fuel with
  | zero =>
    intro iteration ts h1 h2 n s hn
    simp only [run_tool_loop_aux]
    have := h2 n s hn
    rw [h1 n] at this
    exact this
  | succ fuel ih =>
    intro iteration ts h1 h2 n s hn
    simp only [run_tool_loop_aux]
    by_cases hempty : (env.chat ts.messages).tool_calls.isEmpty
    · simp only [hempty, if_true]
      by_cases hnudge : (iteration == 0 && ts.skills_called.isEmpty &&
          reSearch _REFUSAL_PATTERN (env.chat ts.messages).content) = true
      · simp only [hnudge, if_true]
        apply ih
        · exact h1
        · exact h2
        · exact hn
      · simp only [hnudge, if_false]
        have := h2 n s hn
        rw [h1 n] at this
        exact this
    · simp only [hempty, if_false]
      have hinv := process_tool_calls_inv env registry auto_approve user_id hwf
        (env.chat ts.messages).tool_calls
        { ts with messages := ts.messages ++ [{ env.chat ts.messages with role := "assistant" }] }
        h1 h2
      apply ih
      · exact hinv.1
      · exact hinv.2
      · exact hn

/-! ## Claim C1 -/

/-- Claim C1: a skill is never executed past a failed gate — when the
rate-limit check returns false, validation returns not-ok, or the
approval gate resolves to anything but approved (for an
approval-requiring skill without auto-approve), execute_skill returns a
diagnostic string without invoking the skill; and across one
run_tool_loop turn, the executor is invoked for a registered skill at
most max_calls_per_turn times. -/
theorem C1_gates_block_execution :
    (∀ (R : Type) (skill : Skill R) (params : Params) (env : ExecEnv)
        (auto_approve : Bool) (user_id : String),
      (env.rate_limit_ok = false ∨
        (∃ reason, skill.validate params = Except.ok (false, reason)) ∨
        (skill.requires_approval = true ∧ auto_approve = false ∧
          ∃ res, env.approval = Except.ok res ∧ res ≠ "approved")) →
      (execute_skill skill params env auto_approve user_id).executed = false ∧
      ∃ msg, (execute_skill skill params env auto_approve user_id).output =
        "[" ++ skill.name ++ "] " ++ msg) ∧
    (∀ (R : Type) (env : LoopEnv R) (messages : List Msg) (tools : Option (List Unit))
        (registry : String → Option (Skill R)) (auto_approve : Bool) (user_id : String)
        (max_iterations : Nat) (n : String) (s : Skill R),
      (∀ n' s', registry n' = some s' → s'.name = n') →
      registry n = some s →
      (run_tool_loop env messages tools registry auto_approve user_id
        max_iterations).2.2.skills_called.count n ≤ s.max_calls_per_turn) := by
  constructor
  · intro R skill params env auto_approve user_id hgate
    rcases hgate with hrate | ⟨reason, hval⟩ | ⟨hreq, hauto, res, ha, hres⟩
    · rw [execute_skill_rate_limited skill params env auto_approve user_id hrate]
      exact ⟨rfl, ⟨"Rate limit reached — try again later.", diag_shape _ _ _ (by rfl)⟩⟩
    · by_cases hr : env.rate_limit_ok = true
      · rw [execute_skill_invalid skill params env auto_approve user_id reason hr hval]
        exact ⟨rfl, ⟨"Invalid parameters: " ++ reason,
          diag_split _ _ "Invalid parameters: " reason rfl⟩⟩
      · simp only [Bool.not_eq_true] at hr
        rw [execute_skill_rate_limited skill params env auto_approve user_id hr]
        exact ⟨rfl, ⟨"Rate limit reached — try again later.", diag_shape _ _ _ (by rfl)⟩⟩
    · by_cases hr : env.rate_limit_ok = true
      · rcases hval : skill.validate params with e | ⟨ok, reason⟩
        · rw [execute_skill_validate_error skill params env auto_approve user_id e hr hval]
          exact ⟨rfl, ⟨"Validation error: " ++ e,
            diag_split _ _ "Validation error: " e rfl⟩⟩
        · cases ok with
          | false =>
            rw [execute_skill_invalid skill params env auto_approve user_id reason hr hval]
            exact ⟨rfl, ⟨"Invalid parameters: " ++ reason,
              diag_split _ _ "Invalid parameters: " reason rfl⟩⟩
          | true =>
            rw [execute_skill_not_approved skill params env auto_approve user_id reason res hr
              hval hreq hauto ha hres]
            exact ⟨rfl, ⟨"Skill execution was not approved.", diag_shape _ _ _ (by rfl)⟩⟩
      · simp only [Bool.not_eq_true] at hr
        rw [execute_skill_rate_limited skill params env auto_approve user_id hr]
        exact ⟨rfl, ⟨"Rate limit reached — try again later.", diag_shape _ _ _ (by rfl)⟩⟩
  · intro R env messages tools registry auto_approve user_id max_iterations n s hwf hn
    unfold run_tool_loop
    by_cases ht : toolsFalsy tools
    · simp [ht]
    · simp only [ht, if_false]
      exact run_tool_loop_aux_cap env registry auto_approve user_id hwf max_iterations 0
        { messages := messages, counts := fun _ => 0, skills_called := [], callIdx := 0 }
        (fun m => rfl) (fun n' s' _ => Nat.zero_le _) n s hn

/-- Witness for C1: a rate-limited invocation does not execute, and a
concrete turn against the web_search registry stays within the cap. -/
theorem C1_gates_block_execution_witness :
    ((execute_skill skillGood emptyParams envRateDenied true "u1").executed = false ∧
      ∃ msg, (execute_skill skillGood emptyParams envRateDenied true "u1").output =
        "[" ++ skillGood.name ++ "] " ++ msg) ∧
    (run_tool_loop envRefusal msgsHi (some [()]) regWS true "u1"
      5).2.2.skills_called.count "web_search" ≤ 3 := by
  constructor
  · exact (C1_gates_block_execution).1 Unit skillGood emptyParams envRateDenied true "u1"
      (Or.inl rfl)
  · exact (C1_gates_block_execution).2 Unit envRefusal msgsHi (some [()]) regWS true "u1" 5
      "web_search" _ (by
        intro n' s' h
        by_cases hn : n' = "web_search"
        · subst hn
          simp only [regWS, beq_self_eq_true, if_true] at h
          cases h
          rfl
        · simp only [regWS] at h
          rw [if_neg (by simpa using hn)] at h
          cases h) rfl

/-! ## Lemmas for the refusal nudge (C9) -/

theorem countNudge_append (a b : List Msg) :
    countNudge (a ++ b) = countNudge a + countNudge b :=
  List.countP_append _ _ _

theorem countNudge_assistant (text : String) (tcs : List ToolCall) :
    countNudge [{ role := "assistant", content := text, tool_calls := tcs }] = 0 := by
  simp [countNudge, List.countP_cons]

theorem countNudge_tool (text : String) :
    countNudge [{ role := "tool", content := text }] = 0 := by
  simp [countNudge, List.countP_cons]

theorem countNudge_final_prompt :
    countNudge [{ role := "user", content := FINAL_ANSWER_PROMPT }] = 0 := by
  decide

theorem countNudge_nudge :
    countNudge [{ role := "user", content := _RETRY_NUDGE }] = 1 := by
  decide

/-- The inner tool-call loop appends only tool-role messages, so it
never adds a nudge. -/
theorem process_tool_calls_countNudge {R : Type} (env : LoopEnv R)
    (registry : String → Option (Skill R)) (auto_approve : Bool) (user_id : String) :
    ∀ (tcs : List ToolCall) (ts : TurnState),
      countNudge (process_tool_calls env registry auto_approve user_id tcs ts).messages =
        countNudge ts.messages := by
  intro tcs
  induction tcs with
  | nil => intro ts; rfl
  | cons tc rest ih =>
    intro ts
    simp only [process_tool_calls]
    rcases hreg : registry tc.name with _ | skill
    · rw [ih]
      simp [countNudge_append, countNudge_tool]
    · by_cases hcap : skill.max_calls_per_turn ≤ ts.counts skill.name
      · simp only [hcap, if_true]
        rw [ih]
        simp [countNudge_append, countNudge_tool]
      · simp only [hcap, if_false]
        rw [ih]
        simp [countNudge_append, countNudge_tool]

/-- Past iteration 0 the nudge branch is unreachable, so the message
log gains no nudge. -/
theorem run_tool_loop_aux_no_nudge {R : Type} (env : LoopEnv R)
    (registry : String → Option (Skill R)) (auto_approve : Bool) (user_id : String) :
    ∀ (fuel iteration : Nat) (ts : TurnState), iteration ≠ 0 →
      countNudge (run_tool_loop_aux env registry auto_approve user_id fuel iteration
        ts).2.1 = countNudge ts.messages := by
  intro fuel
  induction fuel with
  | zero =>
    intro iteration ts _
    simp only [run_tool_loop_aux]
    have hfp : (FINAL_ANSWER_PROMPT == _RETRY_NUDGE) = false := by decide
    simp [countNudge_append, countNudge, List.countP_cons, hfp]
  | succ fuel ih =>
    intro iteration ts hiter
    simp only [run_tool_loop_aux]
    by_cases hempty : (env.chat ts.messages).tool_calls.isEmpty = true
    · rw [if_pos hempty]
      have hit : (iteration == 0) = false := by simp [hiter]
      rw [if_neg (by simp [hit])]
      simp [countNudge_append, countNudge, List.countP_cons]
    · rw [if_neg hempty]
      rw [ih _ _ (by omega), process_tool_calls_countNudge]
      simp [countNudge_append, countNudge, List.countP_cons]

/-! ## Claim C9 -/

/-- Claim C9: across one run_tool_loop invocation at most one refusal
nudge is appended to the conversation, and one is appended only when
the first model response of the turn (iteration 0, before any skill
call) has no tool calls and its text matches the refusal pattern. -/
theorem countNudge_aux_zero {R : Type} (env : LoopEnv R)
    (registry : String → Option (Skill R)) (auto_approve : Bool) (user_id : String)
    (iteration : Nat) (ts : TurnState) :
    countNudge (run_tool_loop_aux env registry auto_approve user_id 0 iteration
      ts).2.1 = countNudge ts.messages := by
  simp only [run_tool_loop_aux]
  have hfp : (FINAL_ANSWER_PROMPT == _RETRY_NUDGE) = false := by decide
  simp [countNudge_append, countNudge, List.countP_cons, hfp]

/-- Claim C9: across one run_tool_loop invocation at most one refusal
nudge is appended to the conversation, and one is appended only when
the first model response of the turn (iteration 0, before any skill
call) has no tool calls and its text matches the refusal pattern. -/
theorem C9_nudge_one_shot {R : Type} (env : LoopEnv R) (messages : List Msg)
    (tools : Option (List Unit)) (registry : String → Option (Skill R))
    (auto_approve : Bool) (user_id : String) (max_iterations : Nat) :
    countNudge (run_tool_loop env messages tools registry auto_approve user_id
      max_iterations).2.1 ≤ countNudge messages + 1 ∧
    (countNudge messages < countNudge (run_tool_loop env messages tools registry
        auto_approve user_id max_iterations).2.1 →
      (env.chat messages).tool_calls = [] ∧
      reSearch _REFUSAL_PATTERN (env.chat messages).content = true) := by
  unfold run_tool_loop
  by_cases ht : toolsFalsy tools = true
  · rw [if_pos ht]
    rw [countNudge_append, countNudge_assistant]
    exact ⟨by omega, fun h => absurd h (by omega)⟩
  · rw [if_neg ht]
    cases max_iterations with
    | zero =>
      rw [countNudge_aux_zero]
      dsimp only
      exact ⟨by omega, fun h => absurd h (by omega)⟩
    | succ fuel =>
      simp only [run_tool_loop_aux]
      by_cases hempty : (env.chat messages).tool_calls.isEmpty = true
      · rw [if_pos hempty]
        by_cases hrf : reSearch _REFUSAL_PATTERN (env.chat messages).content = true
        · rw [if_pos (by simp [hrf])]
          rw [run_tool_loop_aux_no_nudge env registry auto_approve user_id fuel 1 _
            (by omega)]
          rw [countNudge_append]
          have h2 : countNudge [(⟨"assistant", (env.chat messages).content, []⟩ : Msg),
              ⟨"user", _RETRY_NUDGE, []⟩] = 1 := by
            simp [countNudge, List.countP_cons]
          rw [h2]
          exact ⟨Nat.le_refl _, fun _ => ⟨List.isEmpty_iff.mp hempty, hrf⟩⟩
        · rw [if_neg (by simp [hrf])]
          rw [countNudge_append, countNudge_assistant]
          exact ⟨by omega, fun h => absurd h (by omega)⟩
      · rw [if_neg hempty]
        rw [run_tool_loop_aux_no_nudge env registry auto_approve user_id fuel 1 _ (by omega),
          process_tool_calls_countNudge, countNudge_append, countNudge_assistant]
        exact ⟨by omega, fun h => absurd h (by omega)⟩

/-- Witness for C9: a concrete turn in which the model refuses once;
exactly one nudge is appended and the refusal premise holds. -/
theorem C9_nudge_one_shot_witness :
    countNudge (run_tool_loop envRefusal msgsHi (some [()]) regWS true "u1" 5).2.1 ≤
      countNudge msgsHi + 1 ∧
    countNudge msgsHi < countNudge (run_tool_loop envRefusal msgsHi (some [()]) regWS
      true "u1" 5).2.1 ∧
    reSearch _REFUSAL_PATTERN (envRefusal.chat msgsHi).content = true :=
  ⟨(C9_nudge_one_shot envRefusal msgsHi (some [()]) regWS true "u1" 5).1,
   by decide,
   ((C9_nudge_one_shot envRefusal msgsHi (some [()]) regWS true "u1" 5).2 (by decide)).2⟩

/-! ## Lemmas for the approval store (C3) -/

/-- resolve refuses to touch a record that is not pending. -/
theorem resolve_nonpending (st : AStore) (i s b : String) (n : ℚ)
    (h : (st i).map ApprovalRecord.status ≠ some "pending") :
    resolve st i s b n = (false, st) := by
  unfold resolve
  rcases hc : st i with _ | r
  · rfl
  · rw [hc] at h
    have hne : r.status ≠ "pending" := by simpa using h
    simp [hne]

/-- A successful resolve starts from a pending record and writes the
passed status. -/
theorem resolve_true_pending (st : AStore) (i s b : String) (n : ℚ) (r : ApprovalRecord)
    (hr : st i = some r) (h : (resolve st i s b n).1 = true) :
    r.status = "pending" ∧
    ((resolve st i s b n).2 i).map ApprovalRecord.status = some s := by
  unfold resolve at h ⊢
  rw [hr] at h ⊢
  by_cases hp : r.status = "pending"
  · refine ⟨hp, ?_⟩
    simp [hp, storeSet]
  · simp [hp] at h

/-- resolve on one id leaves every other id untouched. -/
theorem resolve_snd_other (st : AStore) (j i s b : String) (n : ℚ) (hne : i ≠ j) :
    (resolve st j s b n).2 i = st i := by
  unfold resolve
  rcases st j with _ | r
  · rfl
  · by_cases hp : r.status = "pending"
    · simp [hp, storeSet, hne]
    · simp [hp]

/-- Every store operation preserves the non-pending status of an
existing record (creation freshness is the trace hypothesis). -/
theorem stepOp_preserves_nonpending (st : AStore) (op : AOp) (i : String)
    (r : ApprovalRecord) (hc : st i = some r) (hs : r.status ≠ "pending")
    (hwf : (match op with
      | AOp.create j _ _ _ _ _ _ _ => (st j).isNone
      | _ => true) = true) :
    ∃ r', stepOp st op i = some r' ∧ r'.status ≠ "pending" := by
  cases op with
  | create j a z rk d t p n =>
    have hwf' : (st j).isNone = true := hwf
    have hij : i ≠ j := by
      intro hji
      rw [← hji, hc] at hwf'
      simp at hwf'
    refine ⟨r, ?_, hs⟩
    simp only [stepOp, create_request, storeSet]
    simp [hij, hc]
  | resolveOp j s b n =>
    by_cases hij : i = j
    · subst hij
      simp only [stepOp]
      rw [resolve_nonpending st i s b n (by rw [hc]; simpa using hs)]
      exact ⟨r, hc, hs⟩
    · simp only [stepOp]
      rw [resolve_snd_other st j i s b n hij]
      exact ⟨r, hc, hs⟩
  | deadline j n =>
    by_cases hij : i = j
    · subst hij
      refine ⟨{ r with status := "timeout", resolved_at := some n, resolved_by := some "system:timeout" }, ?_, by simp⟩
      simp only [stepOp, wait_deadline_write]
      rw [hc]
      simp [storeSet]
    · refine ⟨r, ?_, hs⟩
      simp only [stepOp, wait_deadline_write]
      rcases st j with _ | q
      · simp [storeSet, hij, hc]
      · simp [storeSet, hij, hc]

/-- Once an id is resolved, no later resolve in a well-formed trace
returns true for it. -/
theorem countResolveTrue_zero (i : String) :
    ∀ (ops : List AOp) (st : AStore) (r : ApprovalRecord),
      st i = some r → r.status ≠ "pending" → wfOps st ops = true →
      countResolveTrue st i ops = 0 := by
  intro ops
  induction ops with
  | nil => intro st r _ _ _; rfl
  | cons op rest ih =>
    intro st r hc hs hwf
    simp only [wfOps, Bool.and_eq_true] at hwf
    obtain ⟨r', hc', hs'⟩ := stepOp_preserves_nonpending st op i r hc hs hwf.1
    simp only [countResolveTrue]
    rw [ih (stepOp st op) r' hc' hs' hwf.2]
    cases op with
    | create j a z rk d t p n => rfl
    | deadline j n => rfl
    | resolveOp j s b n =>
      show (if j == i && (resolve st j s b n).1 then 1 else 0) + 0 = 0
      by_cases hij : j = i
      · subst hij
        rw [resolve_nonpending st j s b n (by rw [hc]; simpa using hs)]
        simp
      · have : (j == i) = false := by simp [hij]
        simp [this]

/-- In a well-formed trace whose resolve statuses are never `pending`,
at most one resolve call returns true per id. -/
theorem countResolveTrue_le_one :
    ∀ (ops : List AOp) (st : AStore) (i : String),
      wfOps st ops = true → (∀ op ∈ ops, resolveStatusOk op = true) →
      countResolveTrue st i ops ≤ 1 := by
  intro ops
  induction ops with
  | nil => intro st i _ _; exact Nat.zero_le 1
  | cons op rest ih =>
    intro st i hwf hok
    simp only [wfOps, Bool.and_eq_true] at hwf
    have hokrest : ∀ o ∈ rest, resolveStatusOk o = true :=
      fun o ho => hok o (List.mem_cons_of_mem op ho)
    simp only [countResolveTrue]
    cases op with
    | create j a z rk d t p n =>
      simpa using ih (stepOp st (AOp.create j a z rk d t p n)) i hwf.2 hokrest
    | deadline j n =>
      simpa using ih (stepOp st (AOp.deadline j n)) i hwf.2 hokrest
    | resolveOp j s b n =>
      show (if j == i && (resolve st j s b n).1 then 1 else 0) +
        countResolveTrue (stepOp st (AOp.resolveOp j s b n)) i rest ≤ 1
      by_cases hcond : (j == i && (resolve st j s b n).1) = true
      · obtain ⟨hj, htrue⟩ := Bool.and_eq_true .. |>.mp hcond
        have hij : j = i := by simpa using hj
        have hsne : s ≠ "pending" := by
          have := hok (AOp.resolveOp j s b n) (List.mem_cons_self _ _)
          simpa [resolveStatusOk] using this
        rcases hrec : st j with _ | r
        · exfalso
          unfold resolve at htrue
          rw [hrec] at htrue
          simp at htrue
        · obtain ⟨hpend, hstat⟩ := resolve_true_pending st j s b n r hrec htrue
          rcases hsome : (resolve st j s b n).2 j with _ | r'
          · rw [hsome] at hstat
            simp at hstat
          · have hr's : r'.status = s := by
              rw [hsome] at hstat
              simpa using hstat
            have hzero := countResolveTrue_zero i rest (stepOp st (AOp.resolveOp j s b n)) r'
              (by simp only [stepOp]; rw [← hij]; exact hsome)
              (by rw [hr's]; exact hsne) hwf.2
            rw [hzero, if_pos hcond]
      · rw [if_neg hcond]
        simpa using ih (stepOp st (AOp.resolveOp j s b n)) i hwf.2 hokrest

/-! ## Claim C3 -/

/-- Claim C3 counterexample: the deadline write of wait_for_resolution
overwrites a record already resolved to approved (modifying a
non-pending record, with a transition approved → timeout); and when a
resolve call passes the status string `pending`, a later resolve call
returns true a second time. -/
theorem C3_counterexample :
    cexResolved.1 = true ∧
    (cexResolved.2 "a").map ApprovalRecord.status = some "approved" ∧
    ((wait_deadline_write cexResolved.2 "a" 2) "a").map ApprovalRecord.status =
      some "timeout" ∧
    (wait_deadline_write cexResolved.2 "a" 2) "a" ≠ cexResolved.2 "a" ∧
    cexPendingR1.1 = true ∧
    cexPendingR2.1 = true := by
  refine ⟨by decide, by decide, by decide, by decide, by decide, by decide⟩

/-- Claim C3 (amended): resolution through resolve is write-once — in
any well-formed operation trace whose resolve calls pass a status other
than `pending` (the HTTP boundary admits only approved/denied), at most
one resolve per id returns true; resolve never modifies a non-pending
record, and a successful resolve starts from pending and writes the
passed terminal status.  The deadline write inside wait_for_resolution,
however, sets status timeout unconditionally and can overwrite a
resolution that arrived between the final poll and the deadline. -/
theorem C3_amended (st : AStore) (ops : List AOp) (approval_id : String)
    (hwf : wfOps st ops = true) (hok : ∀ op ∈ ops, resolveStatusOk op = true) :
    countResolveTrue st approval_id ops ≤ 1 ∧
    (∀ (st' : AStore) (i s b : String) (n : ℚ),
      (st' i).map ApprovalRecord.status ≠ some "pending" →
      resolve st' i s b n = (false, st')) ∧
    (∀ (st' : AStore) (i s b : String) (n : ℚ) (r : ApprovalRecord),
      st' i = some r → (resolve st' i s b n).1 = true →
      r.status = "pending" ∧
      ((resolve st' i s b n).2 i).map ApprovalRecord.status = some s) :=
  ⟨countResolveTrue_le_one ops st approval_id hwf hok,
   fun st' i s b n h => resolve_nonpending st' i s b n h,
   fun st' i s b n r hr h => resolve_true_pending st' i s b n r hr h⟩

/-- Witness for the amended C3 on a concrete trace. -/
theorem C3_amended_witness :
    wfOps emptyAStore opsDemo = true ∧
    (∀ op ∈ opsDemo, resolveStatusOk op = true) ∧
    countResolveTrue emptyAStore "a" opsDemo ≤ 1 :=
  ⟨by decide, by decide,
   (C3_amended emptyAStore opsDemo "a" (by decide) (by decide)).1⟩

/-! ## Lemmas for the rate limiters (C8) -/

/-- On nonnegative entries, the Redis eviction predicate (keep scores
outside `[0, now - window]`) agrees with the in-memory one (keep
timestamps with `now - t < window`). -/
theorem filter_window_eq (window now : ℚ) (scores : List ℚ)
    (h0 : ∀ x ∈ scores, 0 ≤ x) :
    scores.filter (fun s => !(0 ≤ s && s ≤ now - window)) =
      scores.filter (fun t => now - t < window) := by
  apply List.filter_congr
  intro x hx
  have hx0 : decide (0 ≤ x) = true := decide_eq_true (h0 x hx)
  rw [hx0, Bool.true_and]
  by_cases hc : x ≤ now - window
  · rw [decide_eq_true hc, decide_eq_false (by intro h; linarith)]
    rfl
  · rw [decide_eq_false hc, decide_eq_true (by linarith [lt_of_not_le hc])]
    rfl

/-- Every element of the post-step in-memory window is an old entry or
the current timestamp. -/
theorem mem_step_bounds (max_calls : Nat) (window now : ℚ) (scores : List ℚ) :
    ∀ x ∈ (_check_rate_limit_memory max_calls window scores now).2,
      x ∈ scores ∨ x = now := by
  intro x hx
  simp only [_check_rate_limit_memory] at hx
  split at hx
  · exact Or.inl (List.mem_of_mem_filter hx)
  · rcases List.mem_append.mp hx with h | h
    · exact Or.inl (List.mem_of_mem_filter h)
    · simp at h
      exact Or.inr h

/-- One step of the two limiters from related states: same decision,
same surviving scores, and the Redis TTL refreshed to `now + window + 1`. -/
theorem step_eq (max_calls : Nat) (window now tprev : ℚ) (scores : List ℚ)
    (hsc0 : ∀ x ∈ scores, 0 ≤ x) (hsct : ∀ x ∈ scores, x ≤ tprev) :
    (_check_rate_limit_redis max_calls window
        { scores := scores, expiry := some (tprev + window + 1) } now).1 =
      (_check_rate_limit_memory max_calls window scores now).1 ∧
    (_check_rate_limit_redis max_calls window
        { scores := scores, expiry := some (tprev + window + 1) } now).2.scores =
      (_check_rate_limit_memory max_calls window scores now).2 ∧
    (_check_rate_limit_redis max_calls window
        { scores := scores, expiry := some (tprev + window + 1) } now).2.expiry =
      some (now + window + 1) := by
  simp only [_check_rate_limit_redis, _check_rate_limit_memory]
  by_cases hexp : tprev + window + 1 < now
  · rw [if_pos hexp]
    have hf : scores.filter (fun t => decide (now - t < window)) = [] := by
      rw [List.filter_eq_nil_iff]
      intro x hx
      have h1 := hsct x hx
      simp only [decide_eq_true_eq]
      intro hcon
      linarith
    rw [hf]
    simp only [List.filter_nil, List.nil_append, List.length_singleton, List.length_nil]
    by_cases hm : max_calls = 0
    · subst hm
      rw [if_pos (by omega), if_pos (by omega)]
      exact ⟨rfl, rfl, rfl⟩
    · rw [if_neg (by omega), if_neg (by omega)]
      exact ⟨rfl, rfl, rfl⟩
  · rw [if_neg hexp]
    rw [filter_window_eq window now scores hsc0]
    simp only [List.length_append, List.length_singleton]
    by_cases hd : max_calls ≤ (scores.filter (fun t => now - t < window)).length
    · rw [if_pos (by omega), if_pos hd]
      exact ⟨rfl, rfl, rfl⟩
    · rw [if_neg (by omega), if_neg hd]
      exact ⟨rfl, rfl, rfl⟩

/-- One step from the empty key (no TTL yet). -/
theorem step_eq_init (max_calls : Nat) (window now : ℚ) :
    (_check_rate_limit_redis max_calls window { scores := [], expiry := none } now).1 =
      (_check_rate_limit_memory max_calls window [] now).1 ∧
    (_check_rate_limit_redis max_calls window { scores := [], expiry := none } now).2.scores =
      (_check_rate_limit_memory max_calls window [] now).2 ∧
    (_check_rate_limit_redis max_calls window { scores := [], expiry := none } now).2.expiry =
      some (now + window + 1) := by
  simp only [_check_rate_limit_redis, _check_rate_limit_memory]
  simp only [List.filter_nil, List.nil_append, List.length_singleton, List.length_nil]
  by_cases hm : max_calls = 0
  · subst hm
    rw [if_pos (by omega), if_pos (by omega)]
    exact ⟨rfl, rfl, rfl⟩
  · rw [if_neg (by omega), if_neg (by omega)]
    exact ⟨rfl, rfl, rfl⟩

/-- The two runs agree from every pair of related states. -/
theorem redis_mem_run (max_calls : Nat) (window : ℚ) :
    ∀ (ts scores : List ℚ) (tprev : ℚ),
      List.Pairwise (· ≤ ·) ts → (∀ t ∈ ts, 0 ≤ t) → (∀ t ∈ ts, tprev ≤ t) →
      (∀ x ∈ scores, 0 ≤ x) → (∀ x ∈ scores, x ≤ tprev) →
      redisRun max_calls window { scores := scores, expiry := some (tprev + window + 1) } ts =
        memRun max_calls window scores ts := by
  intro ts
  induction ts with
  | nil => intro scores tprev _ _ _ _ _; rfl
  | cons now rest ih =>
    intro scores tprev hpw hpos hple hs0 hst
    have hnow0 : 0 ≤ now := hpos now (List.mem_cons_self _ _)
    have hstep := step_eq max_calls window now tprev scores hs0 hst
    simp only [redisRun, memRun]
    rw [hstep.1]
    have h2 : (_check_rate_limit_redis max_calls window
        { scores := scores, expiry := some (tprev + window + 1) } now).2 =
        { scores := (_check_rate_limit_memory max_calls window scores now).2,
          expiry := some (now + window + 1) } := by
      rw [← hstep.2.1, ← hstep.2.2]
    rw [h2]
    rw [ih (_check_rate_limit_memory max_calls window scores now).2 now
      (List.pairwise_cons.mp hpw).2
      (fun t ht => hpos t (List.mem_cons_of_mem _ ht))
      (List.pairwise_cons.mp hpw).1
      (fun x hx => by
        rcases mem_step_bounds max_calls window now scores x hx with h | h
        · exact hs0 x h
        · rw [h]; exact hnow0)
      (fun x hx => by
        rcases mem_step_bounds max_calls window now scores x hx with h | h
        · exact le_trans (hst x h) (hple now (List.mem_cons_self _ _))
        · rw [h])]

/-! ## Claim C8 -/

/-- Claim C8: the Redis-backed sliding window (atomic evict/add/count
with rollback of the just-added entry on overshoot, plus the TTL) and
the in-process sliding window produce the same admit/deny sequence for
every bucket configuration and every nonnegative, nondecreasing
sequence of call timestamps, starting from empty state. -/
theorem C8_rate_limit_interchangeable (max_calls : Nat) (window : ℚ) (ts : List ℚ)
    (hmono : List.Pairwise (· ≤ ·) ts) (hpos : ∀ t ∈ ts, 0 ≤ t) :
    redisRun max_calls window { scores := [], expiry := none } ts =
      memRun max_calls window [] ts := by
  cases ts with
  | nil => rfl
  | cons now rest =>
    have hnow0 : 0 ≤ now := hpos now (List.mem_cons_self _ _)
    have hstep := step_eq_init max_calls window now
    simp only [redisRun, memRun]
    rw [hstep.1]
    have h2 : (_check_rate_limit_redis max_calls window
        { scores := [], expiry := none } now).2 =
        { scores := (_check_rate_limit_memory max_calls window [] now).2,
          expiry := some (now + window + 1) } := by
      rw [← hstep.2.1, ← hstep.2.2]
    rw [h2]
    rw [redis_mem_run max_calls window rest
      (_check_rate_limit_memory max_calls window [] now).2 now
      (List.pairwise_cons.mp hmono).2
      (fun t ht => hpos t (List.mem_cons_of_mem _ ht))
      (List.pairwise_cons.mp hmono).1
      (fun x hx => by
        rcases mem_step_bounds max_calls window now [] x hx with h | h
        · simp at h
        · rw [h]; exact hnow0)
      (fun x hx => by
        rcases mem_step_bounds max_calls window now [] x hx with h | h
        · simp at h
        · rw [h])]

/-- Witness for C8: four rapid calls against cap 3, window 60. -/
theorem C8_rate_limit_interchangeable_witness :
    List.Pairwise (· ≤ ·) ([0, 1, 2, 3] : List ℚ) ∧
    (∀ t ∈ ([0, 1, 2, 3] : List ℚ), 0 ≤ t) ∧
    redisRun 3 60 { scores := [], expiry := none } [0, 1, 2, 3] =
      memRun 3 60 [] [0, 1, 2, 3] :=
  ⟨by decide, by decide,
   C8_rate_limit_interchangeable 3 60 [0, 1, 2, 3] (by decide) (by decide)⟩

/-! ## String containment lemmas (C7) -/

theorem beginsWith_append : ∀ (p s t : List Char), beginsWith p s = true →
    beginsWith p (s ++ t) = true
  | [], _, _, _ => rfl
  | a :: as, [], _, h => by simp [beginsWith] at h
  | a :: as, b :: bs, t, h => by
    simp only [beginsWith, Bool.and_eq_true] at h
    simp only [List.cons_append, beginsWith, Bool.and_eq_true]
    exact ⟨h.1, beginsWith_append as bs t h.2⟩

theorem beginsWith_self : ∀ (p : List Char), beginsWith p p = true
  | [] => rfl
  | a :: as => by simp [beginsWith, beginsWith_self as]

theorem occursIn_nil_pat : ∀ (t : List Char), occursIn [] t = true
  | [] => rfl
  | c :: r => by simp [occursIn, beginsWith]

theorem occursIn_of_beginsWith : ∀ (p t : List Char), beginsWith p t = true →
    occursIn p t = true
  | _, [], h => h
  | _, c :: r, h => by simp [occursIn, h]

theorem occursIn_append_l : ∀ (p s t : List Char), occursIn p s = true →
    occursIn p (s ++ t) = true
  | p, [], t, h => by
    cases p with
    | nil => simpa using occursIn_nil_pat t
    | cons a as => simp [occursIn, beginsWith] at h
  | p, c :: r, t, h => by
    simp only [occursIn, Bool.or_eq_true] at h
    simp only [List.cons_append, occursIn, Bool.or_eq_true]
    rcases h with h | h
    · exact Or.inl (by simpa using beginsWith_append p (c :: r) t h)
    · exact Or.inr (occursIn_append_l p r t h)

theorem occursIn_append_r : ∀ (p s t : List Char), occursIn p t = true →
    occursIn p (s ++ t) = true
  | _, [], _, h => h
  | p, c :: r, t, h => by
    simp only [List.cons_append, occursIn, Bool.or_eq_true]
    exact Or.inr (occursIn_append_r p r t h)

theorem containsStr_append_l (s t x : String) (h : containsStr s x = true) :
    containsStr (s ++ t) x = true := by
  unfold containsStr at h ⊢
  show occursIn x.data (s.data ++ t.data) = true
  exact occursIn_append_l x.data s.data t.data h

theorem containsStr_append_r (s t x : String) (h : containsStr t x = true) :
    containsStr (s ++ t) x = true := by
  unfold containsStr at h ⊢
  show occursIn x.data (s.data ++ t.data) = true
  exact occursIn_append_r x.data s.data t.data h

theorem containsStr_self (s : String) : containsStr s s = true :=
  occursIn_of_beginsWith s.data s.data (beginsWith_self s.data)

/-! ## Serialization containment lemmas (C7) -/

/-- Containment propagates from the tail of a serialized dict. -/
theorem containsStr_serDict_tail (k : String) (v : JValue) (rest : JDict) (x : String)
    (h : containsStr (serDict rest) x = true) :
    containsStr (serDict (JDict.cons k v rest)) x = true := by
  cases rest with
  | nil =>
    have hx : x.data = [] := by
      unfold containsStr at h
      cases hd : x.data with
      | nil => rfl
      | cons a as =>
        rw [hd] at h
        simp [occursIn, beginsWith] at h
    unfold containsStr
    rw [hx]
    exact occursIn_nil_pat _
  | cons k2 v2 r2 =>
    show containsStr (escStr k ++ ": " ++ serialize v ++ ", " ++
      serDict (JDict.cons k2 v2 r2)) x = true
    exact containsStr_append_r _ _ _ h

/-- Containment propagates from the head value of a serialized dict. -/
theorem containsStr_serDict_head (k : String) (v : JValue) (rest : JDict) (x : String)
    (h : containsStr (serialize v) x = true) :
    containsStr (serDict (JDict.cons k v rest)) x = true := by
  cases rest with
  | nil =>
    show containsStr (escStr k ++ ": " ++ serialize v) x = true
    exact containsStr_append_r _ _ _ h
  | cons k2 v2 r2 =>
    show containsStr (escStr k ++ ": " ++ serialize v ++ ", " ++
      serDict (JDict.cons k2 v2 r2)) x = true
    exact containsStr_append_l _ _ _ (containsStr_append_l _ _ _
      (containsStr_append_r _ _ _ h))

/-- Containment propagates through the dict braces. -/
theorem containsStr_serialize_dict (es : JDict) (x : String)
    (h : containsStr (serDict es) x = true) :
    containsStr (serialize (JValue.dict es)) x = true := by
  show containsStr ("\x7b" ++ serDict es ++ "\x7d") x = true
  exact containsStr_append_l _ _ _ (containsStr_append_r _ _ _ h)

/-! ## Redaction lemmas (C7) -/

mutual
/-- Sanitizing a value holding a dict-reachable sensitive key leaves
the redaction marker in its serialization. -/
theorem redacted_in_value : ∀ (v : JValue), valueHasSensitive v = true →
    containsStr (serialize (_sanitize_value v)) "***REDACTED***" = true
  | JValue.dict es, h => by
    simp only [_sanitize_value]
    exact containsStr_serialize_dict _ _
      (redacted_in_dict es (by simpa [valueHasSensitive] using h))
  | JValue.null, h => by simp [valueHasSensitive] at h
  | JValue.bool b, h => by simp [valueHasSensitive] at h
  | JValue.num n, h => by simp [valueHasSensitive] at h
  | JValue.str t, h => by simp [valueHasSensitive] at h
  | JValue.arr xs, h => by simp [valueHasSensitive] at h
/-- Likewise for a dict with a dict-reachable sensitive key. -/
theorem redacted_in_dict : ∀ (es : JDict), dictHasSensitive es = true →
    containsStr (serDict (_sanitize es)) "***REDACTED***" = true
  | JDict.nil, h => by simp [dictHasSensitive] at h
  | JDict.cons k v rest, h => by
    simp only [_sanitize]
    by_cases hk : _SENSITIVE_KEYS.contains (strLower k) = true
    · rw [if_pos hk]
      exact containsStr_serDict_head _ _ _ _ (by decide)
    · rw [if_neg hk]
      have h' : (_SENSITIVE_KEYS.contains (strLower k) || valueHasSensitive v ||
          dictHasSensitive rest) = true := h
      rcases (Bool.or_eq_true _ _).mp h' with h2 | h3
      · rcases (Bool.or_eq_true _ _).mp h2 with h4 | h5
        · exact absurd h4 hk
        · exact containsStr_serDict_head _ _ _ _ (redacted_in_value v h5)
      · exact containsStr_serDict_tail _ _ _ _ (redacted_in_dict rest h3)
end

mutual
/-- After sanitization every dict-reachable sensitive key maps to the
redaction marker. -/
theorem sensRedactedV_sanitize : ∀ (v : JValue), sensRedactedV (_sanitize_value v) = true
  | JValue.dict es => by
    simp only [_sanitize_value, sensRedactedV]
    exact sensRedacted_sanitize es
  | JValue.null => rfl
  | JValue.bool b => rfl
  | JValue.num n => rfl
  | JValue.str t => rfl
  | JValue.arr xs => rfl
theorem sensRedacted_sanitize : ∀ (es : JDict), sensRedacted (_sanitize es) = true
  | JDict.nil => rfl
  | JDict.cons k v rest => by
    simp only [_sanitize]
    by_cases hk : _SENSITIVE_KEYS.contains (strLower k) = true
    · rw [if_pos hk]
      simp only [sensRedacted]
      rw [if_pos hk]
      simp [sensRedacted_sanitize rest]
    · rw [if_neg hk]
      simp only [sensRedacted]
      rw [if_neg hk]
      simp [sensRedactedV_sanitize v, sensRedacted_sanitize rest]
end

mutual
/-- A string other than the marker that occurs only under sensitive
keys (through dicts) is gone after sanitization. -/
theorem occurs_san_value : ∀ (s : String) (v : JValue), s ≠ "***REDACTED***" →
    occursUnprotected s v = false → occursVal s (_sanitize_value v) = false
  | s, JValue.dict es, hne, h => by
    simp only [_sanitize_value, occursVal]
    exact occurs_san_dict s es hne (by simpa [occursUnprotected] using h)
  | s, JValue.str t, _, h => by
    simpa [occursUnprotected, _sanitize_value, occursVal] using h
  | s, JValue.arr xs, _, h => by
    simpa [occursUnprotected, _sanitize_value, occursVal] using h
  | s, JValue.null, _, _ => rfl
  | s, JValue.bool b, _, _ => rfl
  | s, JValue.num n, _, _ => rfl
theorem occurs_san_dict : ∀ (s : String) (es : JDict), s ≠ "***REDACTED***" →
    occursDictUnprotected s es = false → occursDict s (_sanitize es) = false
  | s, JDict.nil, _, _ => rfl
  | s, JDict.cons k v rest, hne, h => by
    simp only [occursDictUnprotected, Bool.or_eq_false_iff] at h
    simp only [_sanitize]
    by_cases hk : _SENSITIVE_KEYS.contains (strLower k) = true
    · rw [if_pos hk]
      simp only [occursDict, Bool.or_eq_false_iff]
      refine ⟨?_, occurs_san_dict s rest hne h.2⟩
      simp only [occursVal]
      simp [Ne.symm hne]
    · rw [if_neg hk]
      simp only [occursDict, Bool.or_eq_false_iff]
      have h1 : occursUnprotected s v = false := by
        have h1 := h.1
        rw [if_neg hk] at h1
        exact h1
      exact ⟨occurs_san_value s v hne h1, occurs_san_dict s rest hne h.2⟩
end

/-- The serialized `log_skill_call` line carries the redaction marker
whenever the params hold a dict-reachable sensitive key. -/
theorem redacted_in_line (trace_id user_id channel : String) (timestamp : JValue)
    (skill_name : String) (params extra : JDict)
    (hs : dictHasSensitive params = true) :
    containsStr (log_skill_call_line trace_id user_id channel timestamp skill_name
      params extra) "***REDACTED***" = true := by
  unfold log_skill_call_line
  apply containsStr_serialize_dict
  apply containsStr_serDict_tail
  apply containsStr_serDict_tail
  apply containsStr_serDict_tail
  apply containsStr_serDict_tail
  apply containsStr_serDict_tail
  apply containsStr_serDict_tail
  apply containsStr_serDict_head
  exact containsStr_serialize_dict _ _ (redacted_in_dict params hs)

/-! ## Claim C7 -/

/-- Claim C7 counterexample: a sensitive key nested inside a list is
not redacted — the serialized trace line contains the secret and no
redaction marker; and the serialized line contains the value of a
redacted key anyway when that string also occurs elsewhere (here,
`skill` inside `skill_name` and `event_type`). -/
theorem C7_counterexample :
    containsStr (log_skill_call_line "t" "u" "c" (JValue.num 0) "api_call"
      (JDict.cons "a" (JValue.arr (JArr.cons (JValue.dict
        (JDict.cons "password" (JValue.str "hunter2") JDict.nil)) JArr.nil)) JDict.nil)
      JDict.nil) "hunter2" = true ∧
    containsStr (log_skill_call_line "t" "u" "c" (JValue.num 0) "api_call"
      (JDict.cons "a" (JValue.arr (JArr.cons (JValue.dict
        (JDict.cons "password" (JValue.str "hunter2") JDict.nil)) JArr.nil)) JDict.nil)
      JDict.nil) "***REDACTED***" = false ∧
    containsStr (log_skill_call_line "t" "u" "c" (JValue.num 0) "skill_x"
      (JDict.cons "token" (JValue.str "skill") JDict.nil) JDict.nil) "skill" = true := by
  refine ⟨by decide, by decide, by decide⟩

/-- Claim C7 (amended): for params whose sensitive keys are reachable
through dict values (the walk does not enter lists), the serialized
trace line contains the redaction marker; after sanitization every
dict-reachable sensitive key maps to the marker; and a secret string
distinct from the marker that occurred only as the value of sensitive
keys occurs nowhere in the sanitized params. -/
theorem C7_secret_redaction (trace_id user_id channel : String) (timestamp : JValue)
    (skill_name : String) (params extra : JDict) (secret : String) :
    (dictHasSensitive params = true →
      containsStr (log_skill_call_line trace_id user_id channel timestamp skill_name
        params extra) "***REDACTED***" = true) ∧
    sensRedacted (_sanitize params) = true ∧
    (secret ≠ "***REDACTED***" → occursDictUnprotected secret params = false →
      occursDict secret (_sanitize params) = false) :=
  ⟨fun hs => redacted_in_line trace_id user_id channel timestamp skill_name params extra hs,
   sensRedacted_sanitize params,
   fun hne h => occurs_san_dict secret params hne h⟩

/-- Witness for the amended C7 on a dict-nested password. -/
theorem C7_secret_redaction_witness :
    dictHasSensitive (JDict.cons "config" (JValue.dict
      (JDict.cons "password" (JValue.str "hunter2") JDict.nil)) JDict.nil) = true ∧
    containsStr (log_skill_call_line "t" "u" "c" (JValue.num 0) "api_call"
      (JDict.cons "config" (JValue.dict
        (JDict.cons "password" (JValue.str "hunter2") JDict.nil)) JDict.nil)
      JDict.nil) "***REDACTED***" = true ∧
    occursDict "hunter2" (_sanitize (JDict.cons "config" (JValue.dict
      (JDict.cons "password" (JValue.str "hunter2") JDict.nil)) JDict.nil)) = false :=
  ⟨by decide,
   (C7_secret_redaction "t" "u" "c" (JValue.num 0) "api_call" _ JDict.nil "hunter2").1
     (by decide),
   (C7_secret_redaction "t" "u" "c" (JValue.num 0) "api_call" _ JDict.nil "hunter2").2.2
     (by decide) (by decide)⟩

end Agent
